import Mathlib

/-!
Shallow embedding of the rlox scan → parse → evaluate pipeline
(src/scanner.rs, src/parser.rs, src/interpreter.rs, src/token.rs, src/lib.rs).

Modelling conventions:
* Rust `f64` is modelled by `F64`: an unnormalized fraction `num n d`
  (value n / d, with d > 0 at every construction site) extended with the
  special values `posInf`, `negInf`, `nan`.  The number literals the scanner
  produces are exact decimals, so fraction arithmetic agrees with IEEE-754
  on the values exercised here; comparisons and IEEE equality are by
  cross-multiplication, and `beq nan nan = false` as in IEEE-754.
* Rust `panic!` / `todo!` / out-of-bounds slice indexing are modelled as an
  explicit abnormal outcome (`panicked`), never as a Lean error.
* Recursive loops take an explicit fuel argument; running out of fuel is the
  distinct outcome `fuelOut`.  Fuel is a modelling device only: theorems
  about concrete inputs use ample fuel, and universal theorems either hold
  for every fuel or carry an explicit fuel lower bound.
* Side-effecting diagnostics (`error(line, msg)` printing to stderr, the
  parser's `had_error` flag and its `eprintln!`) do not influence any value
  the pipeline returns and are not modelled.
* Rust `String` is modelled as `List Char`.  `Scanner::is_at_end` compares
  the cursor with the UTF-8 byte length `source.len()`; the embedding uses
  the char count, which coincides with it on ASCII sources.
-/

/-- Model of Rust `f64` restricted to the values reachable in this pipeline:
exact (unnormalized) fractions plus the IEEE special values. -/
inductive F64 where
  | num (n : Int) (d : Nat)
  | posInf
  | negInf
  | nan
deriving DecidableEq, Repr

/-- IEEE addition on the model (finite case is exact fraction addition). -/
def F64.add : F64 → F64 → F64
  | .nan, _ => .nan
  | _, .nan => .nan
  | .num a da, .num b db => .num (a * db + b * da) (da * db)
  | .posInf, .negInf => .nan
  | .negInf, .posInf => .nan
  | .posInf, _ => .posInf
  | _, .posInf => .posInf
  | .negInf, _ => .negInf
  | _, .negInf => .negInf

/-- IEEE subtraction on the model. -/
def F64.sub : F64 → F64 → F64
  | .nan, _ => .nan
  | _, .nan => .nan
  | .num a da, .num b db => .num (a * db - b * da) (da * db)
  | .posInf, .posInf => .nan
  | .negInf, .negInf => .nan
  | .posInf, _ => .posInf
  | .negInf, _ => .negInf
  | .num _ _, .posInf => .negInf
  | .num _ _, .negInf => .posInf

/-- IEEE multiplication on the model. -/
def F64.mul : F64 → F64 → F64
  | .nan, _ => .nan
  | _, .nan => .nan
  | .num a da, .num b db => .num (a * b) (da * db)
  | .posInf, .posInf => .posInf
  | .posInf, .negInf => .negInf
  | .negInf, .posInf => .negInf
  | .negInf, .negInf => .posInf
  | .posInf, .num b _ => if 0 < b then .posInf else if b < 0 then .negInf else .nan
  | .num a _, .posInf => if 0 < a then .posInf else if a < 0 then .negInf else .nan
  | .negInf, .num b _ => if 0 < b then .negInf else if b < 0 then .posInf else .nan
  | .num a _, .negInf => if 0 < a then .negInf else if a < 0 then .posInf else .nan

/-- IEEE division on the model; a zero divisor gives an infinity or NaN,
never an error (the model has a single zero, signed zero is not tracked). -/
def F64.div : F64 → F64 → F64
  | .nan, _ => .nan
  | _, .nan => .nan
  | .num a da, .num b db =>
    if b = 0 then (if 0 < a then .posInf else if a < 0 then .negInf else .nan)
    else .num (a * db * (if b < 0 then -1 else 1)) (da * b.natAbs)
  | .posInf, .num b _ => if b < 0 then .negInf else .posInf
  | .negInf, .num b _ => if b < 0 then .posInf else .negInf
  | .num _ _, .posInf => .num 0 1
  | .num _ _, .negInf => .num 0 1
  | _, _ => .nan

/-- IEEE strict less-than on the model (false whenever NaN is involved). -/
def F64.lt : F64 → F64 → Bool
  | .nan, _ => false
  | _, .nan => false
  | .num a da, .num b db => decide (a * db < b * da)
  | .negInf, .negInf => false
  | .negInf, _ => true
  | _, .negInf => false
  | .posInf, _ => false
  | .num _ _, .posInf => true

/-- IEEE less-or-equal on the model (false whenever NaN is involved). -/
def F64.le : F64 → F64 → Bool
  | .nan, _ => false
  | _, .nan => false
  | .num a da, .num b db => decide (a * db ≤ b * da)
  | .negInf, _ => true
  | _, .posInf => true
  | _, _ => false

/-- IEEE strict greater-than: `a > b` is `b < a`. -/
def F64.gt (a b : F64) : Bool := F64.lt b a

/-- IEEE greater-or-equal: `a >= b` is `b <= a`. -/
def F64.ge (a b : F64) : Bool := F64.le b a

/-- IEEE equality on the model (value equality; `nan == nan` is false). -/
def F64.beq : F64 → F64 → Bool
  | .num a da, .num b db => decide (a * db = b * da)
  | .posInf, .posInf => true
  | .negInf, .negInf => true
  | _, _ => false

/-- Token kinds, from `token.rs` `enum TokenType`. -/
inductive TokenType where
  | LeftParen
  | RightParen
  | LeftBrace
  | RightBrace
  | Comma
  | Dot
  | Minus
  | Plus
  | Semicolon
  | Slash
  | Star
  | Bang
  | BangEqual
  | Equal
  | EqualEqual
  | Greater
  | GreaterEqual
  | Less
  | LessEqual
  | Identifier
  | String
  | Number
  | And
  | Class
  | Else
  | False
  | Fun
  | For
  | If
  | Nil
  | Or
  | Print
  | Return
  | Super
  | This
  | True
  | Var
  | While
  | EOF
deriving DecidableEq, Repr

/-- Tokens, from `token.rs` `struct Token`.  The Rust `String` fields are
`List Char` here. -/
structure Token where
  tok_type : TokenType
  lexeme : List Char
  line : Int
  bool_literal : Bool
  float_literal : F64
  string_literal : List Char
deriving DecidableEq, Repr

/-- Digit-string value, used to model `str::parse::<f64>`. -/
def digitsVal (cs : List Char) : Nat :=
  cs.foldl (fun n c => n * 10 + (c.toNat - 48)) 0

/-- Model of `text_buffer.parse::<f64>().unwrap()` on the lexemes the scanner
produces (`digits` optionally followed by `.` and digits); decimal lexemes
are represented exactly. -/
def parseF64 (cs : List Char) : F64 :=
  let ip := cs.takeWhile Char.isDigit
  let rest := cs.dropWhile Char.isDigit
  match rest with
  | '.' :: frac => .num ((digitsVal ip : Int) * (10 ^ frac.length) + (digitsVal frac : Int)) (10 ^ frac.length)
  | _ => .num (digitsVal ip) 1

/-- `lib.rs` `is_alpha`. -/
def is_alpha (c : Char) : Bool := c.isAlpha || c == '_'

/-- `lib.rs` `is_alphanumeric`. -/
def is_alphanumeric (c : Char) : Bool := is_alpha c || c.isDigit

/-- The `reserved` keyword map built in `new_scanner`, as the list of its
sixteen entries. -/
def reserved : List (List Char × TokenType) :=
  [("and".toList, .And), ("class".toList, .Class), ("else".toList, .Else),
   ("false".toList, .False), ("for".toList, .For), ("fun".toList, .Fun),
   ("if".toList, .If), ("nil".toList, .Nil), ("or".toList, .Or),
   ("print".toList, .Print), ("return".toList, .Return), ("super".toList, .Super),
   ("this".toList, .This), ("true".toList, .True), ("var".toList, .Var),
   ("while".toList, .While)]

/-- `self.reserved.get(text)`: keyword lookup. -/
def reservedLookup (text : List Char) : Option TokenType :=
  (reserved.find? (fun p => p.1 == text)).map (fun p => p.2)

namespace Scanner

/-- Scanner state, from `scanner.rs` `struct Scanner`.  The `source` string,
the unused `tokens` field and the `reserved` map (a fixed table, modelled by
`reservedLookup`) are not carried. -/
structure St where
  chars : List Char
  text_buffer : List Char
  start : Nat
  current : Nat
  line : Int
deriving DecidableEq, Repr

/-- `new_scanner`'s initial cursor state. -/
def mkSt (cs : List Char) : St :=
  { chars := cs, text_buffer := [], start := 0, current := 0, line := 1 }

/-- `is_at_end`: Rust compares `current` with the byte length of the source;
the model uses the char count (equal on ASCII sources). -/
def isAtEnd (s : St) : Bool := s.chars.length ≤ s.current

/-- `peek`. -/
def peek (s : St) : Char := if isAtEnd s then '\x00' else s.chars.getD s.current '\x00'

/-- `peek_next`. -/
def peekNext (s : St) : Char :=
  if s.chars.length ≤ s.current + 1 then '\x00' else s.chars.getD (s.current + 1) '\x00'

/-- `advance`: reads `chars[current]`, appends it to the text buffer and
bumps the cursor.  `none` models the Rust index-out-of-bounds panic when
`current` is past the end. -/
def advance (s : St) : Option (Char × St) :=
  match s.chars[s.current]? with
  | some c => some (c, { s with text_buffer := s.text_buffer ++ [c], current := s.current + 1 })
  | none => none

/-- `tok_match`: conditional one-character advance. -/
def tokMatch (expected : Char) (s : St) : Bool × St :=
  if isAtEnd s then (false, s)
  else if s.chars.getD s.current '\x00' ≠ expected then (false, s)
  else (true, { s with text_buffer := s.text_buffer ++ [expected], current := s.current + 1 })

/-- Scanner outcomes: a value, a Rust panic, or fuel exhaustion (a modelling
artifact, see the header). -/
inductive Out (α : Type) where
  | ok (a : α)
  | panicked (msg : String)
  | fuelOut
deriving DecidableEq, Repr

/-- Message used for every modelled slice-index panic. -/
def oobMsg : String := "index out of bounds"

/-- `add_token_base`. -/
def addTokenBase (s : St) (t : TokenType) : Token :=
  { tok_type := t, lexeme := s.text_buffer, line := s.line,
    bool_literal := false, float_literal := .num 0 1, string_literal := [] }

/-- `add_token_string_literal`. -/
def addTokenString (s : St) (t : TokenType) (lit : List Char) : Token :=
  { addTokenBase s t with string_literal := lit }

/-- `add_token_float_literal`. -/
def addTokenFloat (s : St) (t : TokenType) (lit : F64) : Token :=
  { addTokenBase s t with float_literal := lit }

/-- `add_token_bool_literal`. -/
def addTokenBool (s : St) (t : TokenType) (lit : Bool) : Token :=
  { addTokenBase s t with bool_literal := lit }

/-- `add_token` (always returns `Some` in the source, modelled as a plain
token). -/
def addToken (s : St) (t : TokenType) : Token :=
  match t with
  | .False => addTokenBool s t false
  | .True => addTokenBool s t true
  | _ => addTokenBase s t

/-- The loop inside `parse_identifier`. -/
def identLoop (fuel : Nat) (s : St) : Out St :=
  match fuel with
  | 0 => .fuelOut
  | fuel + 1 =>
    if is_alphanumeric (peek s) then
      match advance s with
      | some (_, s') => identLoop fuel s'
      | none => .panicked oobMsg
    else .ok s

/-- `parse_identifier`. -/
def parse_identifier (fuel : Nat) (s : St) : Out (Token × St) :=
  match identLoop fuel s with
  | .ok s' =>
    match reservedLookup s'.text_buffer with
    | some t => .ok (addToken s' t, s')
    | none => .ok (addToken s' .Identifier, s')
  | .panicked m => .panicked m
  | .fuelOut => .fuelOut

/-- The digit-consuming loops inside `parse_number`. -/
def digitLoop (fuel : Nat) (s : St) : Out St :=
  match fuel with
  | 0 => .fuelOut
  | fuel + 1 =>
    if (peek s).isDigit then
      match advance s with
      | some (_, s') => digitLoop fuel s'
      | none => .panicked oobMsg
    else .ok s

/-- `parse_number`: digits, optionally one `.` followed by at least one
digit, then the lexeme parsed as a float. -/
def parse_number (fuel : Nat) (s : St) : Out (Token × St) :=
  match digitLoop fuel s with
  | .ok s1 =>
    if peek s1 = '.' ∧ (peekNext s1).isDigit then
      match advance s1 with
      | some (_, s2) =>
        match digitLoop fuel s2 with
        | .ok s3 => .ok (addTokenFloat s3 .Number (parseF64 s3.text_buffer), s3)
        | .panicked m => .panicked m
        | .fuelOut => .fuelOut
      | none => .panicked oobMsg
    else .ok (addTokenFloat s1 .Number (parseF64 s1.text_buffer), s1)
  | .panicked m => .panicked m
  | .fuelOut => .fuelOut

/-- The consume-until-quote loop inside `parse_string`. -/
def stringLoop (fuel : Nat) (s : St) : Out St :=
  match fuel with
  | 0 => .fuelOut
  | fuel + 1 =>
    if peek s ≠ '"' ∧ ¬ isAtEnd s then
      match advance (if peek s = '\n' then { s with line := s.line + 1 } else s) with
      | some (_, s') => stringLoop fuel s'
      | none => .panicked oobMsg
    else .ok s

/-- `parse_string`.  After the loop the source reports "Unterminated string."
when at end of input (a diagnostic, not modelled) and then unconditionally
calls `advance` for the closing quote — at end of input that read is the
out-of-bounds panic.  The slice `chars[start + 1..current - 1]` is written
with truncating subtraction; whenever this point is reached the opening and
closing quotes have both been consumed, so `start + 1 ≤ current - 1` holds
and the slice never underflows (`parse_string_payload` proves the reachable
case). -/
def parse_string (fuel : Nat) (s : St) : Out (Token × St) :=
  match stringLoop fuel s with
  | .ok s1 =>
    match advance s1 with
    | some (_, s2) =>
      .ok (addTokenString s2 .String ((s2.chars.drop (s2.start + 1)).take (s2.current - 1 - (s2.start + 1))), s2)
    | none => .panicked oobMsg
  | .panicked m => .panicked m
  | .fuelOut => .fuelOut

/-- The comment-skipping loop in the `/` arm of `scan_tokens`. -/
def commentLoop (fuel : Nat) (s : St) : Out St :=
  match fuel with
  | 0 => .fuelOut
  | fuel + 1 =>
    if peek s ≠ '\n' ∧ ¬ isAtEnd s then
      match advance s with
      | some (_, s') => commentLoop fuel s'
      | none => .panicked oobMsg
    else .ok s

/-- One dispatch step of `scan_tokens`' main loop: the big `match c`.
Returns the token the step emits (if any) and the new state.  The `<` and
`>` arms reproduce the source exactly: `<` yields `Greater`/`GreaterEqual`
and `>` yields `Less`/`LessEqual`.  The unexpected-character arm only emits
a diagnostic (not modelled) and no token. -/
def scanStep (fuel : Nat) (c : Char) (s : St) : Out (Option Token × St) :=
  match c with
  | '(' => .ok (some (addToken s .LeftParen), s)
  | ')' => .ok (some (addToken s .RightParen), s)
  | '{' => .ok (some (addToken s .LeftBrace), s)
  | '}' => .ok (some (addToken s .RightBrace), s)
  | ',' => .ok (some (addToken s .Comma), s)
  | '.' => .ok (some (addToken s .Dot), s)
  | '-' => .ok (some (addToken s .Minus), s)
  | '+' => .ok (some (addToken s .Plus), s)
  | ';' => .ok (some (addToken s .Semicolon), s)
  | '*' => .ok (some (addToken s .Star), s)
  | ' ' => .ok (none, s)
  | '\r' => .ok (none, s)
  | '\t' => .ok (none, s)
  | '\n' => .ok (none, { s with line := s.line + 1 })
  | '!' =>
    match tokMatch '=' s with
    | (true, s') => .ok (some (addToken s' .BangEqual), s')
    | (false, s') => .ok (some (addToken s' .Bang), s')
  | '=' =>
    match tokMatch '=' s with
    | (true, s') => .ok (some (addToken s' .EqualEqual), s')
    | (false, s') => .ok (some (addToken s' .Equal), s')
  | '<' =>
    match tokMatch '=' s with
    | (true, s') => .ok (some (addToken s' .GreaterEqual), s')
    | (false, s') => .ok (some (addToken s' .Greater), s')
  | '>' =>
    match tokMatch '=' s with
    | (true, s') => .ok (some (addToken s' .LessEqual), s')
    | (false, s') => .ok (some (addToken s' .Less), s')
  | '/' =>
    match tokMatch '/' s with
    | (true, s') =>
      match commentLoop fuel s' with
      | .ok s'' => .ok (none, s'')
      | .panicked m => .panicked m
      | .fuelOut => .fuelOut
    | (false, s') => .ok (some (addToken s' .Slash), s')
  | '"' =>
    match parse_string fuel s with
    | .ok (t, s') => .ok (some t, s')
    | .panicked m => .panicked m
    | .fuelOut => .fuelOut
  | _ =>
    if c.isDigit then
      match parse_number fuel s with
      | .ok (t, s') => .ok (some t, s')
      | .panicked m => .panicked m
      | .fuelOut => .fuelOut
    else if is_alpha c then
      match parse_identifier fuel s with
      | .ok (t, s') => .ok (some t, s')
      | .panicked m => .panicked m
      | .fuelOut => .fuelOut
    else .ok (none, s)

/-- The main loop of `scan_tokens`: set `start`, advance one char, dispatch,
push the produced token, reset the text buffer; on end of input append the
final `EOF` token. -/
def scanLoop (fuel : Nat) (s : St) (acc : List Token) : Out (List Token) :=
  match fuel with
  | 0 => .fuelOut
  | fuel + 1 =>
    if ¬ isAtEnd s then
      match advance { s with start := s.current } with
      | some (c, s1) =>
        match scanStep fuel c s1 with
        | .ok (t?, s2) =>
          scanLoop fuel { s2 with text_buffer := [] }
            (match t? with
             | some tok => acc ++ [tok]
             | none => acc)
        | .panicked m => .panicked m
        | .fuelOut => .fuelOut
      | none => .panicked oobMsg
    else .ok (acc ++ [addTokenBase s .EOF])

/-- `scan_tokens` on a fresh scanner for the given source. -/
def scan_tokens (fuel : Nat) (cs : List Char) : Out (List Token) :=
  scanLoop fuel (mkSt cs) []

end Scanner

/-- Runtime values, from `parser.rs` `enum LiteralType` (the `Nil` variant
carries an unused `bool` payload, as in the source). -/
inductive LiteralType where
  | bool (lit : Bool)
  | float (lit : F64)
  | string (lit : List Char)
  | nil (lit : Bool)
deriving DecidableEq, Repr

/-- Expression trees, from `parser.rs` `enum Expression`. -/
inductive Expression where
  | binary (left : Expression) (operator : Token) (right : Expression)
  | unary (operator : Token) (right : Expression)
  | literal (lit : Token)
  | grouping (group : Expression)
deriving DecidableEq, Repr

/-- `parser.rs` `struct ParseError`. -/
structure ParseError where
  line : Int
  msg : String
deriving DecidableEq, Repr

namespace Parser

/-- Parser outcomes: a value, a `ParseError`, a Rust panic, or fuel
exhaustion (a modelling artifact). -/
inductive Res (α : Type) where
  | ok (a : α)
  | perr (e : ParseError)
  | panicked (msg : String)
  | fuelOut
deriving DecidableEq, Repr

/-- `Parser::is_at_end`: the front of the token queue is `EOF` (false on an
empty queue, as in the source). -/
def isAtEnd (ts : List Token) : Bool :=
  match ts.head? with
  | some t => t.tok_type == .EOF
  | none => false

/-- `Parser::check`. -/
def check (tt : TokenType) (ts : List Token) : Bool :=
  if isAtEnd ts then false
  else
    match ts.head? with
    | some t => t.tok_type == tt
    | none => false

/-- `Parser::advance`: reads `tokens[0]` (the out-of-bounds panic on an
empty queue) and pops it unless it is `EOF`. -/
def advance (ts : List Token) : Res (Option Token) × List Token :=
  match ts with
  | [] => (.panicked "advance: index out of bounds", [])
  | t :: rest => if t.tok_type ≠ .EOF then (.ok (some t), rest) else (.ok none, t :: rest)

/-- `Parser::tok_match`: the candidate loop leaves `m` true iff some
candidate checks, then advances. -/
def tokMatch (cands : List TokenType) (ts : List Token) : Res (Bool × Option Token) × List Token :=
  if cands.any (fun c => check c ts) then
    match advance ts with
    | (.ok o, ts') => (.ok (true, o), ts')
    | (.perr e, ts') => (.perr e, ts')
    | (.panicked m, ts') => (.panicked m, ts')
    | (.fuelOut, ts') => (.fuelOut, ts')
  else (.ok (false, none), ts)

/-- The single-quote character, by code point. -/
def squote : String := String.mk [Char.ofNat 39]

/-- Message of `consume` for a missing closing parenthesis, with the
single-quoted rendering of the source message. -/
def rightParenMsg : String := "Expect " ++ squote ++ ")" ++ squote ++ " after expression."

/-- `Parser::error` (the `had_error` flag is write-only in the source and
not modelled). -/
def mkError (t : Token) (m : String) : ParseError :=
  { line := t.line,
    msg := if t.tok_type == .EOF then "at end " ++ m
           else "at " ++ squote ++ String.mk t.lexeme ++ squote ++ " " ++ m }

/-- `Parser::consume`. -/
def consume (tt : TokenType) (msg : String) (ts : List Token) : Res (Option Token) × List Token :=
  if check tt ts then advance ts
  else
    match ts.head? with
    | some t => (.perr (mkError t msg), ts)
    | none => (.panicked "consume - no tokens remaining", ts)

/-- Call tags for the mutually recursive parsing routines of `parser.rs`.
`runLevel` below carries one arm per source function (the `…Loop` tags hold
the fold accumulator of the corresponding source `loop`); a single fueled
function is used because Lean compiles a `mutual` block into a packed
recursor that does not reduce efficiently in the kernel.  Each source
function is recovered as a wrapper definition after `runLevel`. -/
inductive Fn where
  | expression
  | equality
  | equalityLoop (e : Expression)
  | comparison
  | comparisonLoop (e : Expression)
  | term
  | termLoop (e : Expression)
  | factor
  | factorLoop (e : Expression)
  | unary
  | primary
deriving DecidableEq, Repr

/-- The body of every `Parser` grammar routine, selected by tag; every call
(including each loop iteration) spends one unit of fuel, faithful arm by arm
to `parser.rs`.  In the `.termLoop` arm the right operand comes from the
`.term` level — the same grammar level, not `.factor` — exactly as in the
source. -/
def runLevel : Nat → Fn → List Token → Res Expression × List Token
  | 0, _, ts => (.fuelOut, ts)
  | fuel + 1, f, ts =>
    match f with
    | .expression => runLevel fuel .equality ts
    | .equality =>
      match runLevel fuel .comparison ts with
      | (.ok e, ts') => runLevel fuel (.equalityLoop e) ts'
      | (.perr pe, ts') => (.perr pe, ts')
      | (.panicked m, ts') => (.panicked m, ts')
      | (.fuelOut, ts') => (.fuelOut, ts')
    | .equalityLoop e =>
      match tokMatch [.BangEqual, .EqualEqual] ts with
      | (.ok (false, _), ts') => (.ok e, ts')
      | (.ok (true, some t), ts') =>
        match runLevel fuel .comparison ts' with
        | (.ok right, ts'') => runLevel fuel (.equalityLoop (.binary e t right)) ts''
        | (.perr pe, ts'') => (.perr pe, ts'')
        | (.panicked m, ts'') => (.panicked m, ts'')
        | (.fuelOut, ts'') => (.fuelOut, ts'')
      | (.ok (true, none), ts') => (.ok e, ts')
      | (.perr pe, ts') => (.perr pe, ts')
      | (.panicked m, ts') => (.panicked m, ts')
      | (.fuelOut, ts') => (.fuelOut, ts')
    | .comparison =>
      match runLevel fuel .term ts with
      | (.ok e, ts') => runLevel fuel (.comparisonLoop e) ts'
      | (.perr pe, ts') => (.perr pe, ts')
      | (.panicked m, ts') => (.panicked m, ts')
      | (.fuelOut, ts') => (.fuelOut, ts')
    | .comparisonLoop e =>
      match tokMatch [.Greater, .GreaterEqual, .Less, .LessEqual] ts with
      | (.ok (false, _), ts') => (.ok e, ts')
      | (.ok (true, some t), ts') =>
        match runLevel fuel .term ts' with
        | (.ok right, ts'') => runLevel fuel (.comparisonLoop (.binary e t right)) ts''
        | (.perr pe, ts'') => (.perr pe, ts'')
        | (.panicked m, ts'') => (.panicked m, ts'')
        | (.fuelOut, ts'') => (.fuelOut, ts'')
      | (.ok (true, none), ts') => (.ok e, ts')
      | (.perr pe, ts') => (.perr pe, ts')
      | (.panicked m, ts') => (.panicked m, ts')
      | (.fuelOut, ts') => (.fuelOut, ts')
    | .term =>
      match runLevel fuel .factor ts with
      | (.ok e, ts') => runLevel fuel (.termLoop e) ts'
      | (.perr pe, ts') => (.perr pe, ts')
      | (.panicked m, ts') => (.panicked m, ts')
      | (.fuelOut, ts') => (.fuelOut, ts')
    | .termLoop e =>
      match tokMatch [.Minus, .Plus] ts with
      | (.ok (false, _), ts') => (.ok e, ts')
      | (.ok (true, some t), ts') =>
        match runLevel fuel .term ts' with
        | (.ok right, ts'') => runLevel fuel (.termLoop (.binary e t right)) ts''
        | (.perr pe, ts'') => (.perr pe, ts'')
        | (.panicked m, ts'') => (.panicked m, ts'')
        | (.fuelOut, ts'') => (.fuelOut, ts'')
      | (.ok (true, none), ts') => (.ok e, ts')
      | (.perr pe, ts') => (.perr pe, ts')
      | (.panicked m, ts') => (.panicked m, ts')
      | (.fuelOut, ts') => (.fuelOut, ts')
    | .factor =>
      match runLevel fuel .unary ts with
      | (.ok e, ts') => runLevel fuel (.factorLoop e) ts'
      | (.perr pe, ts') => (.perr pe, ts')
      | (.panicked m, ts') => (.panicked m, ts')
      | (.fuelOut, ts') => (.fuelOut, ts')
    | .factorLoop e =>
      match tokMatch [.Slash, .Star] ts with
      | (.ok (false, _), ts') => (.ok e, ts')
      | (.ok (true, some t), ts') =>
        match runLevel fuel .unary ts' with
        | (.ok right, ts'') => runLevel fuel (.factorLoop (.binary e t right)) ts''
        | (.perr pe, ts'') => (.perr pe, ts'')
        | (.panicked m, ts'') => (.panicked m, ts'')
        | (.fuelOut, ts'') => (.fuelOut, ts'')
      | (.ok (true, none), ts') => (.ok e, ts')
      | (.perr pe, ts') => (.perr pe, ts')
      | (.panicked m, ts') => (.panicked m, ts')
      | (.fuelOut, ts') => (.fuelOut, ts')
    | .unary =>
      match tokMatch [.Bang, .Minus] ts with
      | (.ok (false, _), ts') => runLevel fuel .primary ts'
      | (.ok (true, some t), ts') =>
        match runLevel fuel .unary ts' with
        | (.ok right, ts'') => (.ok (.unary t right), ts'')
        | (.perr pe, ts'') => (.perr pe, ts'')
        | (.panicked m, ts'') => (.panicked m, ts'')
        | (.fuelOut, ts'') => (.fuelOut, ts'')
      | (.ok (true, none), ts') =>
        (match ts'.head? with
         | some t => (.perr (mkError t "Expected unary."), ts')
         | none => (.panicked "unary - no tokens remaining", ts'))
      | (.perr pe, ts') => (.perr pe, ts')
      | (.panicked m, ts') => (.panicked m, ts')
      | (.fuelOut, ts') => (.fuelOut, ts')
    | .primary =>
      match tokMatch [.False, .True, .Nil, .Number, .String] ts with
      | (.ok (true, some t), ts') => (.ok (.literal t), ts')
      | (.ok (true, none), ts') => (.panicked "primary: tok_match returned True and None", ts')
      | (.ok (false, _), ts1) =>
        (match tokMatch [.LeftParen] ts1 with
         | (.ok (true, some _), ts2) =>
           (match runLevel fuel .expression ts2 with
            | (.ok e, ts3) =>
              (match consume .RightParen rightParenMsg ts3 with
               | (.ok _, ts4) => (.ok (.grouping e), ts4)
               | (.perr pe, ts4) => (.perr pe, ts4)
               | (.panicked m, ts4) => (.panicked m, ts4)
               | (.fuelOut, ts4) => (.fuelOut, ts4))
            | (.perr pe, ts3) => (.perr pe, ts3)
            | (.panicked m, ts3) => (.panicked m, ts3)
            | (.fuelOut, ts3) => (.fuelOut, ts3))
         | (.ok (true, none), ts2) => (.panicked "primary: tok_match returned True and None", ts2)
         | (.ok (false, _), ts2) =>
           (match ts2.head? with
            | some t => (.perr (mkError t "Expect expression."), ts2)
            | none => (.panicked "primary - no tokens remaining", ts2))
         | (.perr pe, ts2) => (.perr pe, ts2)
         | (.panicked m, ts2) => (.panicked m, ts2)
         | (.fuelOut, ts2) => (.fuelOut, ts2))
      | (.perr pe, ts') => (.perr pe, ts')
      | (.panicked m, ts') => (.panicked m, ts')
      | (.fuelOut, ts') => (.fuelOut, ts')

/-- `Parser::expression`. -/
def expression (fuel : Nat) (ts : List Token) : Res Expression × List Token :=
  runLevel fuel .expression ts

/-- `Parser::equality`. -/
def equality (fuel : Nat) (ts : List Token) : Res Expression × List Token :=
  runLevel fuel .equality ts

/-- `Parser::comparison`. -/
def comparison (fuel : Nat) (ts : List Token) : Res Expression × List Token :=
  runLevel fuel .comparison ts

/-- `Parser::term`. -/
def term (fuel : Nat) (ts : List Token) : Res Expression × List Token :=
  runLevel fuel .term ts

/-- `Parser::factor`. -/
def factor (fuel : Nat) (ts : List Token) : Res Expression × List Token :=
  runLevel fuel .factor ts

/-- `Parser::unary`. -/
def unary (fuel : Nat) (ts : List Token) : Res Expression × List Token :=
  runLevel fuel .unary ts

/-- `Parser::primary`. -/
def primary (fuel : Nat) (ts : List Token) : Res Expression × List Token :=
  runLevel fuel .primary ts

/-- The expression branch of `Parser::parse` (the `eprintln!` on error is a
diagnostic, not modelled). -/
def parseGo (fuel : Nat) (ts : List Token) : Res (Option Expression) × List Token :=
  match expression fuel ts with
  | (.ok e, ts') => (.ok (some e), ts')
  | (.perr pe, ts') => (.perr pe, ts')
  | (.panicked m, ts') => (.panicked m, ts')
  | (.fuelOut, ts') => (.fuelOut, ts')

/-- `Parser::parse`: `Ok(None)` when the queue is exactly one `EOF` token,
otherwise parse one expression. -/
def parse (fuel : Nat) (ts : List Token) : Res (Option Expression) × List Token :=
  match ts with
  | [t] => if t.tok_type = .EOF then (.ok none, [t]) else parseGo fuel [t]
  | _ => parseGo fuel ts

end Parser

/-- `interpreter.rs` `is_truthy`. -/
def is_truthy : LiteralType → Bool
  | .nil _ => false
  | .bool lit => lit
  | .float _ => true
  | .string _ => true

/-- `interpreter.rs` `is_equal` (total: same-variant payload comparison,
mismatched variants are `false`; float comparison is IEEE equality). -/
def is_equal : LiteralType → LiteralType → Bool
  | .nil _, b => match b with | .nil _ => true | _ => false
  | .bool al, b => match b with | .bool bl => al == bl | _ => false
  | .float al, b => match b with | .float bl => F64.beq al bl | _ => false
  | .string al, b => match b with | .string bl => al == bl | _ => false

/-- `interpreter.rs` `check_number_operands` (the `rv &= …` accumulation is
kept as written). -/
def check_number_operands (left right : LiteralType) (operator : Token) :
    Except (Token × String) Bool :=
  let rv := true
  let rv := match left with
    | .bool _ => rv && false
    | .string _ => rv && false
    | .nil _ => rv && false
    | .float _ => rv && true
  let rv := match right with
    | .bool _ => rv && false
    | .string _ => rv && false
    | .nil _ => rv && false
    | .float _ => rv && true
  if rv then .ok rv
  else .error (operator, "Operands must be numbers.")

/-- `interpreter.rs` `check_same_literal_type`. -/
def check_same_literal_type (left right : LiteralType) (operator : Token) :
    Except (Token × String) Bool :=
  let rv := true
  let rv := match left with
    | .float _ => (match right with | .float _ => rv && true | _ => rv && false)
    | .string _ => (match right with | .string _ => rv && true | _ => rv && false)
    | _ => rv && false
  if rv then .ok rv
  else .error (operator, "Operands must be two numbers or two strings.")

/-- Evaluation outcomes: a value, an `InterpreterError` (`Err` in Rust), or
a Rust abort (`todo!` / `panic!`). -/
inductive EvalOut where
  | ok (v : LiteralType)
  | err (tok : Token) (msg : String)
  | panicked (msg : String)
deriving DecidableEq, Repr

/-- Message of the modelled `todo!()` aborts. -/
def todoMsg : String := "not yet implemented"

/-- Message of the modelled bare `panic!()` abort. -/
def panicMsg : String := "explicit panic"

/-- The operator-application part of `evaluate_binary`, applied once the two
operands have been reduced to values: the two `check_*` guards followed by
the nested match on the operand values.  The `todo!()` and `panic!()` arms
of the source are the `panicked` results. -/
def evaluate_binary_vals (left_lit right_lit : LiteralType) (operator : Token) : EvalOut :=
  match (if [TokenType.Greater, .GreaterEqual, .Less, .LessEqual, .Slash, .Minus,
             .Star].contains operator.tok_type
         then check_number_operands left_lit right_lit operator
         else .ok true) with
  | .error (t, m) => .err t m
  | .ok _ =>
    match (if operator.tok_type = .Plus
           then check_same_literal_type left_lit right_lit operator
           else .ok true) with
    | .error (t, m) => .err t m
    | .ok _ =>
      match left_lit with
      | .float l =>
        (match right_lit with
         | .float r =>
           (match operator.tok_type with
            | .Plus => .ok (.float (F64.add l r))
            | .Minus => .ok (.float (F64.sub l r))
            | .Slash => .ok (.float (F64.div l r))
            | .Star => .ok (.float (F64.mul l r))
            | .Greater => .ok (.bool (F64.gt l r))
            | .GreaterEqual => .ok (.bool (F64.ge l r))
            | .Less => .ok (.bool (F64.lt l r))
            | .LessEqual => .ok (.bool (F64.le l r))
            | .BangEqual => .ok (.bool (! is_equal left_lit right_lit))
            | .EqualEqual => .ok (.bool (is_equal left_lit right_lit))
            | _ => .panicked todoMsg)
         | _ => .panicked panicMsg)
      | .string l =>
        (match right_lit with
         | .string r =>
           (match operator.tok_type with
            | .Plus => .ok (.string (l ++ r))
            | .BangEqual => .ok (.bool (! (l == r)))
            | .EqualEqual => .ok (.bool (l == r))
            | _ => .panicked todoMsg)
         | _ => .panicked todoMsg)
      | _ => .panicked todoMsg

/-- The operator-application part of `evaluate_unary`, applied once the
operand has been reduced to a value. -/
def evaluate_unary_val (operator : Token) (right : LiteralType) : EvalOut :=
  match operator.tok_type with
  | .Bang => .ok (.bool (! is_truthy right))
  | .Minus =>
    (match right with
     | .float lit => .ok (.float (F64.mul lit (F64.num (-1) 1)))
     | _ => .err operator "Operand must be a number.")
  | _ => .err operator "interpreter - Got TokenType other than Minus or Bang for unary"

/-- `interpreter.rs` `evaluate`.  The `binary` and `unary` arms inline the
operand evaluations that open `evaluate_binary` / `evaluate_unary` (with
`?`-propagation of errors) and then apply `evaluate_binary_vals` /
`evaluate_unary_val`, which hold the rest of those source functions.  The
`literal` arm's final `panic!` is the `panicked` result. -/
def evaluate : Expression → EvalOut
  | .binary left operator right =>
    (match evaluate left with
     | .err t m => .err t m
     | .panicked m => .panicked m
     | .ok left_lit =>
       (match evaluate right with
        | .err t m => .err t m
        | .panicked m => .panicked m
        | .ok right_lit => evaluate_binary_vals left_lit right_lit operator))
  | .unary operator right =>
    (match evaluate right with
     | .err t m => .err t m
     | .panicked m => .panicked m
     | .ok r => evaluate_unary_val operator r)
  | .grouping group => evaluate group
  | .literal lit =>
    if lit.tok_type = .False ∨ lit.tok_type = .True then .ok (.bool lit.bool_literal)
    else if lit.tok_type = .String then .ok (.string lit.string_literal)
    else if lit.tok_type = .Number then .ok (.float lit.float_literal)
    else .panicked "interpreter - could not match literal token type"

/-- Outcome of one full pipeline run, as driven by `lib.rs` `run` (the
printing of the final value is not modelled; `aborted` is any Rust panic in
any stage). -/
inductive RunOut where
  | val (v : LiteralType)
  | noExpr
  | parseErr (e : ParseError)
  | runtimeErr (tok : Token) (msg : String)
  | aborted (msg : String)
  | outOfFuel
deriving DecidableEq, Repr

/-- `lib.rs` `run`: scan, parse, evaluate. -/
def run (fuel : Nat) (src : List Char) : RunOut :=
  match Scanner.scan_tokens fuel src with
  | .panicked m => .aborted m
  | .fuelOut => .outOfFuel
  | .ok toks =>
    match Parser.parse fuel toks with
    | (.perr e, _) => .parseErr e
    | (.panicked m, _) => .aborted m
    | (.fuelOut, _) => .outOfFuel
    | (.ok none, _) => .noExpr
    | (.ok (some e), _) =>
      match evaluate e with
      | .ok v => .val v
      | .err t m => .runtimeErr t m
      | .panicked m => .aborted m

/-! ## Concrete tokens used by the claim theorems -/

/-- A payload-free token on line 1 with the given kind and lexeme. -/
def mkTok (tt : TokenType) (lex : List Char) : Token :=
  { tok_type := tt, lexeme := lex, line := 1,
    bool_literal := false, float_literal := .num 0 1, string_literal := [] }

/-- A `Number` token with an integer payload. -/
def numTok (n : Int) (lex : List Char) : Token :=
  { mkTok .Number lex with float_literal := .num n 1 }

/-- The final `EOF` token of a line-1 scan. -/
def eofTok : Token := mkTok .EOF []

/-- The `true` keyword token. -/
def trueTok : Token := { mkTok .True "true".toList with bool_literal := true }

/-- The token list the scanner produces for `"7 - 3 - 2"`. -/
def toks732 : List Token :=
  [numTok 7 ['7'], mkTok .Minus ['-'], numTok 3 ['3'], mkTok .Minus ['-'],
   numTok 2 ['2'], eofTok]

/-- The right-leaning tree `7 - (3 - 2)` the parser actually builds for
`"7 - 3 - 2"`. -/
def tree732 : Expression :=
  .binary (.literal (numTok 7 ['7'])) (mkTok .Minus ['-'])
    (.binary (.literal (numTok 3 ['3'])) (mkTok .Minus ['-']) (.literal (numTok 2 ['2'])))

/-! ## C1 -/

set_option maxHeartbeats 4000000 in
/-- C1: the claim says the pipeline evaluates `a < b`, `a > b`, `a <= b`,
`a >= b` with the source operator's IEEE comparison.  It does not: the
scanner maps `<` to `Greater`, `<=` to `GreaterEqual`, `>` to `Less` and
`>=` to `LessEqual`, and the evaluator applies the comparison named by the
token kind, so every comparison is flipped: `1 < 2` evaluates to
`Boolean(false)`, `1 > 2` to `Boolean(true)`, `1 <= 2` to `Boolean(false)`,
`1 >= 2` to `Boolean(true)`. -/
theorem c1_comparison_operators_swapped :
    run 40 "1 < 2".toList = .val (.bool false) ∧
    run 40 "1 > 2".toList = .val (.bool true) ∧
    run 40 "1 <= 2".toList = .val (.bool false) ∧
    run 40 "1 >= 2".toList = .val (.bool true) :=
  ⟨rfl, rfl, rfl, rfl⟩

/-! ## C2 -/

set_option maxHeartbeats 4000000 in
/-- C2: the claim says `==` is defined over any operand pair and never
fails, e.g. `1 == "1"` is `Boolean(false)`.  In the code only
`Float == Float` and `String == String` reach `is_equal`; every other pair
falls into a `todo!()`/`panic!()` arm of `evaluate_binary` and aborts:
a `Boolean(true) == Boolean(true)` binary node hits `todo!()`, and the
pipeline on `1 == "1"` hits `panic!()`. -/
theorem c2_equality_panics_on_nonnumeric_operands :
    evaluate (.binary (.literal trueTok) (mkTok .EqualEqual "==".toList) (.literal trueTok))
      = .panicked todoMsg ∧
    run 60 "1 == \"1\"".toList = .aborted panicMsg :=
  ⟨rfl, rfl⟩

/-! ## C3 -/

set_option maxHeartbeats 4000000 in
/-- C3: the claim says `term` folds iteratively left, so `7 - 3 - 2` parses
as `(7 - 3) - 2` and evaluates to `Number(2.0)`.  In the code the right
operand in `term`'s loop comes from `self.term()` (the same level), so the
scan of `"7 - 3 - 2"` parses into the right-leaning `7 - (3 - 2)` and the
pipeline evaluates it to `Number(6.0)`. -/
theorem c3_term_is_right_recursive :
    Scanner.scan_tokens 60 "7 - 3 - 2".toList = .ok toks732 ∧
    Parser.parse 60 toks732 = (.ok (some tree732), [eofTok]) ∧
    evaluate tree732 = .ok (.float (.num 6 1)) ∧
    run 60 "7 - 3 - 2".toList = .val (.float (.num 6 1)) :=
  ⟨rfl, rfl, rfl, rfl⟩

/-! ## C4 -/

set_option maxHeartbeats 4000000 in
/-- C4: the claim says scanning a source with an unterminated string still
returns normally, with a partial `String` token and the `EOF` token.  In
the code `parse_string` reports the lexical error and then unconditionally
calls `advance` for the closing quote; at end of input that read of
`chars[current]` is out of bounds, so `scan_tokens` on `"abc` (an opening
quote never closed) aborts instead of returning. -/
theorem c4_unterminated_string_panics :
    Scanner.scan_tokens 40 "\"abc".toList = .panicked Scanner.oobMsg :=
  rfl

/-! ## C5 -/

set_option maxHeartbeats 4000000 in
/-- C5 counterexample: the claim says a `ParseError` is returned whenever
the token stream does not reduce to a single complete expression.  The
stream `1 2` (two number literals) is not a single expression, yet `parse`
returns `Ok(Some(Literal 1))` and simply leaves the second literal
unconsumed in the queue. -/
theorem c5_trailing_tokens_ignored :
    Parser.parse 30 [numTok 1 ['1'], numTok 2 ['2'], eofTok]
      = (.ok (some (.literal (numTok 1 ['1']))), [numTok 2 ['2'], eofTok]) :=
  rfl

/-! ## C7 -/

set_option maxHeartbeats 4000000 in
/-- C7: the claim's truthiness rule (`!` returns the negated truthiness of
the operand value) does hold for every value the evaluator produces, and
`!0` indeed yields `Boolean(false)`; but the claim's consequence
`!nil → Boolean(true)` fails: a `nil` literal token matches none of the
`False | True | String | Number` cases of `evaluate`'s literal arm, so
evaluating `!nil` aborts in the literal `panic!` instead of negating
`Nil`'s falsiness. -/
theorem c7_bang_nil_panics :
    run 40 "!nil".toList = .aborted "interpreter - could not match literal token type" ∧
    run 40 "!0".toList = .val (.bool false) :=
  ⟨rfl, rfl⟩

/-! ## C6 -/

/-- C6: for a `+` binary node whose operands evaluate to values `l` and
`r`: two numbers add, two strings concatenate, and every other combination
is the runtime error "Operands must be two numbers or two strings.". -/
theorem c6_plus_same_type_rule (el er : Expression) (op : Token) (l r : LiteralType)
    (hop : op.tok_type = .Plus)
    (hl : evaluate el = .ok l) (hr : evaluate er = .ok r) :
    evaluate (.binary el op er) =
      match l, r with
      | .float a, .float b => .ok (.float (F64.add a b))
      | .string a, .string b => .ok (.string (a ++ b))
      | _, _ => .err op "Operands must be two numbers or two strings." := by
  cases l <;> cases r <;>
    simp [evaluate, hl, hr, evaluate_binary_vals, hop, check_same_literal_type,
      check_number_operands]

/-- C6 witness: `1 + 2` with both operands numbers. -/
theorem c6_plus_same_type_rule_witness :
    (mkTok .Plus ['+']).tok_type = .Plus ∧
    evaluate (.literal (numTok 1 ['1'])) = .ok (.float (.num 1 1)) ∧
    evaluate (.literal (numTok 2 ['2'])) = .ok (.float (.num 2 1)) ∧
    evaluate (.binary (.literal (numTok 1 ['1'])) (mkTok .Plus ['+']) (.literal (numTok 2 ['2'])))
      = .ok (.float (F64.add (.num 1 1) (.num 2 1))) :=
  ⟨rfl, rfl, rfl,
    c6_plus_same_type_rule (.literal (numTok 1 ['1'])) (.literal (numTok 2 ['2']))
      (mkTok .Plus ['+']) (.float (.num 1 1)) (.float (.num 2 1)) rfl rfl rfl⟩

/-! ## C10 -/

/-- C10: a `/` binary node whose operands evaluate to values errs exactly
when an operand is not a number; two numbers — a zero divisor included —
produce `Ok(Number(l / r))` with the IEEE quotient, never a
division-by-zero error. -/
theorem c10_slash_no_div_zero_error (el er : Expression) (op : Token) (l r : LiteralType)
    (hop : op.tok_type = .Slash)
    (hl : evaluate el = .ok l) (hr : evaluate er = .ok r) :
    evaluate (.binary el op er) =
      match l, r with
      | .float a, .float b => .ok (.float (F64.div a b))
      | _, _ => .err op "Operands must be numbers." := by
  cases l <;> cases r <;>
    simp [evaluate, hl, hr, evaluate_binary_vals, hop, check_same_literal_type,
      check_number_operands]

/-- C10 witness: `1 / 0` succeeds with the IEEE quotient `+∞`. -/
theorem c10_slash_no_div_zero_error_witness :
    (mkTok .Slash ['/']).tok_type = .Slash ∧
    evaluate (.literal (numTok 1 ['1'])) = .ok (.float (.num 1 1)) ∧
    evaluate (.literal (numTok 0 ['0'])) = .ok (.float (.num 0 1)) ∧
    evaluate (.binary (.literal (numTok 1 ['1'])) (mkTok .Slash ['/']) (.literal (numTok 0 ['0'])))
      = .ok (.float (F64.div (.num 1 1) (.num 0 1))) ∧
    F64.div (.num 1 1) (.num 0 1) = .posInf :=
  ⟨rfl, rfl, rfl,
    c10_slash_no_div_zero_error (.literal (numTok 1 ['1'])) (.literal (numTok 0 ['0']))
      (mkTok .Slash ['/']) (.float (.num 1 1)) (.float (.num 0 1)) rfl rfl rfl,
    rfl⟩

namespace Parser

/-- Whether a result is a modelled Rust panic. -/
def Res.isPanicked {α : Type} : Res α → Bool
  | .panicked _ => true
  | _ => false

/-- Whether a result is the fuel-exhaustion artifact. -/
def Res.isFuelOut {α : Type} : Res α → Bool
  | .fuelOut => true
  | _ => false

/-- The token queue still holds an `EOF` token somewhere. -/
def containsEOF (ts : List Token) : Prop := ∃ t ∈ ts, t.tok_type = .EOF

/-- The token queue ends with an `EOF` token. -/
def endsInEOF (ts : List Token) : Bool :=
  match ts.getLast? with
  | some t => t.tok_type == .EOF
  | none => false

theorem getLast?_mem : ∀ {l : List Token} {t : Token}, l.getLast? = some t → t ∈ l
  | [], _, h => by simp at h
  | [x], t, h => by
    simp only [List.getLast?_singleton, Option.some.injEq] at h
    simp [h]
  | x :: y :: rest, t, h => by
    rw [List.getLast?_cons_cons] at h
    exact List.mem_cons_of_mem x (getLast?_mem h)

theorem endsInEOF_containsEOF {ts : List Token} (h : endsInEOF ts = true) :
    containsEOF ts := by
  unfold endsInEOF at h
  rcases hl : ts.getLast? with _ | t
  · rw [hl] at h; simp at h
  · rw [hl] at h
    simp only [beq_iff_eq] at h
    exact ⟨t, getLast?_mem hl, h⟩

theorem containsEOF_ne_nil {ts : List Token} (h : containsEOF ts) : ts ≠ [] := by
  rcases h with ⟨t, ht, _⟩
  intro he; rw [he] at ht; simp at ht

theorem containsEOF_tail {t : Token} {rest : List Token} (h : containsEOF (t :: rest))
    (hne : t.tok_type ≠ .EOF) : containsEOF rest := by
  rcases h with ⟨u, hu, hEOF⟩
  rcases List.mem_cons.mp hu with rfl | hu'
  · exact absurd hEOF hne
  · exact ⟨u, hu', hEOF⟩

theorem check_sound {c : TokenType} {ts : List Token} (h : check c ts = true) :
    ∃ t rest, ts = t :: rest ∧ t.tok_type ≠ .EOF ∧ t.tok_type = c := by
  cases ts with
  | nil => simp [check, isAtEnd] at h
  | cons t rest =>
    by_cases he : t.tok_type = .EOF
    · simp [check, isAtEnd, he] at h
    · refine ⟨t, rest, rfl, he, ?_⟩
      simpa [check, isAtEnd, he] using h

theorem tokMatch_spec (cands : List TokenType) (ts : List Token) :
    tokMatch cands ts = (.ok (false, none), ts) ∨
    ∃ t rest, ts = t :: rest ∧ t.tok_type ≠ .EOF ∧
      tokMatch cands ts = (.ok (true, some t), rest) := by
  by_cases h : cands.any (fun c => check c ts)
  · obtain ⟨c, _, hcheck⟩ := List.any_eq_true.mp h
    obtain ⟨t, rest, rfl, hne, _⟩ := check_sound hcheck
    exact Or.inr ⟨t, rest, rfl, hne, by simp [tokMatch, h, advance, hne]⟩
  · exact Or.inl (by simp [tokMatch, h])

theorem consume_spec (tt : TokenType) (msg : String) (ts : List Token) (hne : ts ≠ []) :
    (∃ t rest, ts = t :: rest ∧ t.tok_type ≠ .EOF ∧
      consume tt msg ts = (.ok (some t), rest)) ∨
    (∃ e, consume tt msg ts = (.perr e, ts)) := by
  by_cases h : check tt ts
  · obtain ⟨t, rest, rfl, hn, _⟩ := check_sound h
    exact Or.inl ⟨t, rest, rfl, hn, by simp [consume, h, advance, hn]⟩
  · cases ts with
    | nil => exact absurd rfl hne
    | cons t rest => exact Or.inr ⟨mkError t msg, by simp [consume, h]⟩

theorem consume_ne_fuelOut (tt : TokenType) (msg : String) (ts : List Token) :
    (consume tt msg ts).1.isFuelOut = false := by
  unfold consume
  by_cases h : check tt ts
  · simp only [h, if_true]
    cases ts with
    | nil => rfl
    | cons t rest =>
      by_cases he : t.tok_type = .EOF <;> simp [advance, he, Res.isFuelOut]
  · cases ts with
    | nil => simp [h, Res.isFuelOut]
    | cons t rest => simp [h, Res.isFuelOut]

end Parser

namespace Parser

theorem runLevel_safe : ∀ (fuel : Nat) (f : Fn) (ts : List Token), containsEOF ts →
    (runLevel fuel f ts).1.isPanicked = false ∧ containsEOF (runLevel fuel f ts).2 := by
  intro fuel
  induction fuel with
  | zero => intro f ts h; exact ⟨rfl, h⟩
  | succ fuel ih =>
    intro f ts hts
    cases f with
    | expression => exact ih .equality ts hts
    | equality =>
      simp only [runLevel]
      obtain ⟨h1, h2⟩ := ih .comparison ts hts
      rcases hres : runLevel fuel .comparison ts with ⟨r1, ts'⟩
      rw [hres] at h1 h2
      cases r1 with
      | ok e => exact ih (.equalityLoop e) ts' h2
      | perr pe => exact ⟨rfl, h2⟩
      | panicked m => simp [Res.isPanicked] at h1
      | fuelOut => exact ⟨rfl, h2⟩
    | equalityLoop e =>
      simp only [runLevel]
      rcases tokMatch_spec [.BangEqual, .EqualEqual] ts with hm | ⟨t, rest, rfl, hne, hm⟩
      · simp only [hm]; exact ⟨rfl, hts⟩
      · simp only [hm]
        have hrest := containsEOF_tail hts hne
        obtain ⟨h1, h2⟩ := ih .comparison rest hrest
        rcases hres : runLevel fuel .comparison rest with ⟨r1, ts''⟩
        rw [hres] at h1 h2
        cases r1 with
        | ok right => exact ih (.equalityLoop (.binary e t right)) ts'' h2
        | perr pe => exact ⟨rfl, h2⟩
        | panicked m => simp [Res.isPanicked] at h1
        | fuelOut => exact ⟨rfl, h2⟩
    | comparison =>
      simp only [runLevel]
      obtain ⟨h1, h2⟩ := ih .term ts hts
      rcases hres : runLevel fuel .term ts with ⟨r1, ts'⟩
      rw [hres] at h1 h2
      cases r1 with
      | ok e => exact ih (.comparisonLoop e) ts' h2
      | perr pe => exact ⟨rfl, h2⟩
      | panicked m => simp [Res.isPanicked] at h1
      | fuelOut => exact ⟨rfl, h2⟩
    | comparisonLoop e =>
      simp only [runLevel]
      rcases tokMatch_spec [.Greater, .GreaterEqual, .Less, .LessEqual] ts with
        hm | ⟨t, rest, rfl, hne, hm⟩
      · simp only [hm]; exact ⟨rfl, hts⟩
      · simp only [hm]
        have hrest := containsEOF_tail hts hne
        obtain ⟨h1, h2⟩ := ih .term rest hrest
        rcases hres : runLevel fuel .term rest with ⟨r1, ts''⟩
        rw [hres] at h1 h2
        cases r1 with
        | ok right => exact ih (.comparisonLoop (.binary e t right)) ts'' h2
        | perr pe => exact ⟨rfl, h2⟩
        | panicked m => simp [Res.isPanicked] at h1
        | fuelOut => exact ⟨rfl, h2⟩
    | term =>
      simp only [runLevel]
      obtain ⟨h1, h2⟩ := ih .factor ts hts
      rcases hres : runLevel fuel .factor ts with ⟨r1, ts'⟩
      rw [hres] at h1 h2
      cases r1 with
      | ok e => exact ih (.termLoop e) ts' h2
      | perr pe => exact ⟨rfl, h2⟩
      | panicked m => simp [Res.isPanicked] at h1
      | fuelOut => exact ⟨rfl, h2⟩
    | termLoop e =>
      simp only [runLevel]
      rcases tokMatch_spec [.Minus, .Plus] ts with hm | ⟨t, rest, rfl, hne, hm⟩
      · simp only [hm]; exact ⟨rfl, hts⟩
      · simp only [hm]
        have hrest := containsEOF_tail hts hne
        obtain ⟨h1, h2⟩ := ih .term rest hrest
        rcases hres : runLevel fuel .term rest with ⟨r1, ts''⟩
        rw [hres] at h1 h2
        cases r1 with
        | ok right => exact ih (.termLoop (.binary e t right)) ts'' h2
        | perr pe => exact ⟨rfl, h2⟩
        | panicked m => simp [Res.isPanicked] at h1
        | fuelOut => exact ⟨rfl, h2⟩
    | factor =>
      simp only [runLevel]
      obtain ⟨h1, h2⟩ := ih .unary ts hts
      rcases hres : runLevel fuel .unary ts with ⟨r1, ts'⟩
      rw [hres] at h1 h2
      cases r1 with
      | ok e => exact ih (.factorLoop e) ts' h2
      | perr pe => exact ⟨rfl, h2⟩
      | panicked m => simp [Res.isPanicked] at h1
      | fuelOut => exact ⟨rfl, h2⟩
    | factorLoop e =>
      simp only [runLevel]
      rcases tokMatch_spec [.Slash, .Star] ts with hm | ⟨t, rest, rfl, hne, hm⟩
      · simp only [hm]; exact ⟨rfl, hts⟩
      · simp only [hm]
        have hrest := containsEOF_tail hts hne
        obtain ⟨h1, h2⟩ := ih .unary rest hrest
        rcases hres : runLevel fuel .unary rest with ⟨r1, ts''⟩
        rw [hres] at h1 h2
        cases r1 with
        | ok right => exact ih (.factorLoop (.binary e t right)) ts'' h2
        | perr pe => exact ⟨rfl, h2⟩
        | panicked m => simp [Res.isPanicked] at h1
        | fuelOut => exact ⟨rfl, h2⟩
    | unary =>
      simp only [runLevel]
      rcases tokMatch_spec [.Bang, .Minus] ts with hm | ⟨t, rest, rfl, hne, hm⟩
      · simp only [hm]; exact ih .primary ts hts
      · simp only [hm]
        have hrest := containsEOF_tail hts hne
        obtain ⟨h1, h2⟩ := ih .unary rest hrest
        rcases hres : runLevel fuel .unary rest with ⟨r1, ts''⟩
        rw [hres] at h1 h2
        cases r1 with
        | ok right => exact ⟨rfl, h2⟩
        | perr pe => exact ⟨rfl, h2⟩
        | panicked m => simp [Res.isPanicked] at h1
        | fuelOut => exact ⟨rfl, h2⟩
    | primary =>
      simp only [runLevel]
      rcases tokMatch_spec [.False, .True, .Nil, .Number, .String] ts with
        hm1 | ⟨t, rest, rfl, hne, hm1⟩
      · simp only [hm1]
        rcases tokMatch_spec [.LeftParen] ts with hm2 | ⟨t2, rest2, rfl, hne2, hm2⟩
        · simp only [hm2]
          cases ts with
          | nil => exact absurd rfl (containsEOF_ne_nil hts)
          | cons u us => exact ⟨rfl, hts⟩
        · simp only [hm2]
          have hrest2 := containsEOF_tail hts hne2
          obtain ⟨h1, h2⟩ := ih .expression rest2 hrest2
          rcases hres : runLevel fuel .expression rest2 with ⟨r1, ts3⟩
          rw [hres] at h1 h2
          cases r1 with
          | ok e =>
            rcases consume_spec .RightParen rightParenMsg ts3 (containsEOF_ne_nil h2) with
              ⟨u, rest3, hts3, hneu, hcons⟩ | ⟨pe, hcons⟩
            · simp only [hcons]
              exact ⟨rfl, containsEOF_tail (hts3 ▸ h2) hneu⟩
            · simp only [hcons]; exact ⟨rfl, h2⟩
          | perr pe => exact ⟨rfl, h2⟩
          | panicked m => simp [Res.isPanicked] at h1
          | fuelOut => exact ⟨rfl, h2⟩
      · simp only [hm1]; exact ⟨rfl, containsEOF_tail hts hne⟩

end Parser

namespace Parser

theorem consume_len (tt : TokenType) (msg : String) (ts : List Token) :
    (consume tt msg ts).2.length ≤ ts.length := by
  unfold consume
  by_cases h : check tt ts
  · simp only [h, if_true]
    cases ts with
    | nil => simp [advance]
    | cons t rest =>
      by_cases he : t.tok_type = .EOF <;> simp [advance, he]
  · cases ts with
    | nil => simp [h]
    | cons t rest => simp [h]

theorem runLevel_len : ∀ (fuel : Nat) (f : Fn) (ts : List Token),
    (runLevel fuel f ts).2.length ≤ ts.length := by
  intro fuel
  induction fuel with
  | zero => intro f ts; exact le_refl _
  | succ fuel ih =>
    intro f ts
    cases f with
    | expression => exact ih .equality ts
    | equality =>
      simp only [runLevel]
      have hl1 := ih .comparison ts
      rcases hres : runLevel fuel .comparison ts with ⟨r1, ts'⟩
      rw [hres] at hl1
      cases r1 with
      | ok e => exact le_trans (ih (.equalityLoop e) ts') hl1
      | perr pe => exact hl1
      | panicked m => exact hl1
      | fuelOut => exact hl1
    | equalityLoop e =>
      simp only [runLevel]
      rcases tokMatch_spec [.BangEqual, .EqualEqual] ts with hm | ⟨t, rest, rfl, hne, hm⟩
      · simp only [hm]; exact le_refl _
      · simp only [hm]
        have hl1 := ih .comparison rest
        rcases hres : runLevel fuel .comparison rest with ⟨r1, ts''⟩
        rw [hres] at hl1
        cases r1 with
        | ok right =>
          exact le_trans (le_trans (ih (.equalityLoop (.binary e t right)) ts'') hl1)
            (Nat.le_succ _)
        | perr pe => exact le_trans hl1 (Nat.le_succ _)
        | panicked m => exact le_trans hl1 (Nat.le_succ _)
        | fuelOut => exact le_trans hl1 (Nat.le_succ _)
    | comparison =>
      simp only [runLevel]
      have hl1 := ih .term ts
      rcases hres : runLevel fuel .term ts with ⟨r1, ts'⟩
      rw [hres] at hl1
      cases r1 with
      | ok e => exact le_trans (ih (.comparisonLoop e) ts') hl1
      | perr pe => exact hl1
      | panicked m => exact hl1
      | fuelOut => exact hl1
    | comparisonLoop e =>
      simp only [runLevel]
      rcases tokMatch_spec [.Greater, .GreaterEqual, .Less, .LessEqual] ts with
        hm | ⟨t, rest, rfl, hne, hm⟩
      · simp only [hm]; exact le_refl _
      · simp only [hm]
        have hl1 := ih .term rest
        rcases hres : runLevel fuel .term rest with ⟨r1, ts''⟩
        rw [hres] at hl1
        cases r1 with
        | ok right =>
          exact le_trans (le_trans (ih (.comparisonLoop (.binary e t right)) ts'') hl1)
            (Nat.le_succ _)
        | perr pe => exact le_trans hl1 (Nat.le_succ _)
        | panicked m => exact le_trans hl1 (Nat.le_succ _)
        | fuelOut => exact le_trans hl1 (Nat.le_succ _)
    | term =>
      simp only [runLevel]
      have hl1 := ih .factor ts
      rcases hres : runLevel fuel .factor ts with ⟨r1, ts'⟩
      rw [hres] at hl1
      cases r1 with
      | ok e => exact le_trans (ih (.termLoop e) ts') hl1
      | perr pe => exact hl1
      | panicked m => exact hl1
      | fuelOut => exact hl1
    | termLoop e =>
      simp only [runLevel]
      rcases tokMatch_spec [.Minus, .Plus] ts with hm | ⟨t, rest, rfl, hne, hm⟩
      · simp only [hm]; exact le_refl _
      · simp only [hm]
        have hl1 := ih .term rest
        rcases hres : runLevel fuel .term rest with ⟨r1, ts''⟩
        rw [hres] at hl1
        cases r1 with
        | ok right =>
          exact le_trans (le_trans (ih (.termLoop (.binary e t right)) ts'') hl1)
            (Nat.le_succ _)
        | perr pe => exact le_trans hl1 (Nat.le_succ _)
        | panicked m => exact le_trans hl1 (Nat.le_succ _)
        | fuelOut => exact le_trans hl1 (Nat.le_succ _)
    | factor =>
      simp only [runLevel]
      have hl1 := ih .unary ts
      rcases hres : runLevel fuel .unary ts with ⟨r1, ts'⟩
      rw [hres] at hl1
      cases r1 with
      | ok e => exact le_trans (ih (.factorLoop e) ts') hl1
      | perr pe => exact hl1
      | panicked m => exact hl1
      | fuelOut => exact hl1
    | factorLoop e =>
      simp only [runLevel]
      rcases tokMatch_spec [.Slash, .Star] ts with hm | ⟨t, rest, rfl, hne, hm⟩
      · simp only [hm]; exact le_refl _
      · simp only [hm]
        have hl1 := ih .unary rest
        rcases hres : runLevel fuel .unary rest with ⟨r1, ts''⟩
        rw [hres] at hl1
        cases r1 with
        | ok right =>
          exact le_trans (le_trans (ih (.factorLoop (.binary e t right)) ts'') hl1)
            (Nat.le_succ _)
        | perr pe => exact le_trans hl1 (Nat.le_succ _)
        | panicked m => exact le_trans hl1 (Nat.le_succ _)
        | fuelOut => exact le_trans hl1 (Nat.le_succ _)
    | unary =>
      simp only [runLevel]
      rcases tokMatch_spec [.Bang, .Minus] ts with hm | ⟨t, rest, rfl, hne, hm⟩
      · simp only [hm]; exact ih .primary ts
      · simp only [hm]
        have hl1 := ih .unary rest
        rcases hres : runLevel fuel .unary rest with ⟨r1, ts''⟩
        rw [hres] at hl1
        cases r1 with
        | ok right => exact le_trans hl1 (Nat.le_succ _)
        | perr pe => exact le_trans hl1 (Nat.le_succ _)
        | panicked m => exact le_trans hl1 (Nat.le_succ _)
        | fuelOut => exact le_trans hl1 (Nat.le_succ _)
    | primary =>
      simp only [runLevel]
      rcases tokMatch_spec [.False, .True, .Nil, .Number, .String] ts with
        hm1 | ⟨t, rest, rfl, hne, hm1⟩
      · simp only [hm1]
        rcases tokMatch_spec [.LeftParen] ts with hm2 | ⟨t2, rest2, rfl, hne2, hm2⟩
        · simp only [hm2]
          cases ts with
          | nil => exact le_refl _
          | cons u us => exact le_refl _
        · simp only [hm2]
          have hl1 := ih .expression rest2
          rcases hres : runLevel fuel .expression rest2 with ⟨r1, ts3⟩
          rw [hres] at hl1
          cases r1 with
          | ok e =>
            have hcl := consume_len .RightParen rightParenMsg ts3
            rcases hcons : consume .RightParen rightParenMsg ts3 with ⟨r2, ts4⟩
            rw [hcons] at hcl
            simp only [hcons]
            cases r2 with
            | ok o => exact le_trans (le_trans hcl hl1) (Nat.le_succ _)
            | perr pe => exact le_trans (le_trans hcl hl1) (Nat.le_succ _)
            | panicked m => exact le_trans (le_trans hcl hl1) (Nat.le_succ _)
            | fuelOut => exact le_trans (le_trans hcl hl1) (Nat.le_succ _)
          | perr pe => exact le_trans hl1 (Nat.le_succ _)
          | panicked m => exact le_trans hl1 (Nat.le_succ _)
          | fuelOut => exact le_trans hl1 (Nat.le_succ _)
      · simp only [hm1]; exact Nat.le_succ _

end Parser

namespace Parser

/-- Fuel rank of each parsing routine: the amount of fuel needed beyond
`8 * queue length` for the routine to finish without running out. -/
def rank : Fn → Nat
  | .expression => 8
  | .equality => 7
  | .equalityLoop _ => 6
  | .comparison => 6
  | .comparisonLoop _ => 5
  | .term => 5
  | .termLoop _ => 4
  | .factor => 4
  | .factorLoop _ => 3
  | .unary => 3
  | .primary => 2

theorem runLevel_fuel : ∀ (fuel : Nat) (f : Fn) (ts : List Token), containsEOF ts →
    8 * ts.length + rank f ≤ fuel → (runLevel fuel f ts).1.isFuelOut = false := by
  intro fuel
  induction fuel with
  | zero =>
    intro f ts _ hb
    exfalso
    have h2 : 2 ≤ rank f := by cases f <;> simp [rank]
    omega
  | succ fuel ih =>
    intro f ts hts hb
    cases f with
    | expression =>
      exact ih .equality ts hts (by simp only [rank] at hb ⊢; omega)
    | equality =>
      simp only [runLevel]
      have hsafe := (runLevel_safe fuel .comparison ts hts).2
      have hlen := runLevel_len fuel .comparison ts
      have hcf := ih .comparison ts hts (by simp only [rank] at hb ⊢; omega)
      rcases hres : runLevel fuel .comparison ts with ⟨r1, ts'⟩
      rw [hres] at hsafe hlen hcf
      cases r1 with
      | ok e =>
        exact ih (.equalityLoop e) ts' hsafe
          (by have hl2 : ts'.length ≤ ts.length := hlen; simp only [rank] at hb ⊢; omega)
      | perr pe => rfl
      | panicked m => rfl
      | fuelOut => simp [Res.isFuelOut] at hcf
    | equalityLoop e =>
      simp only [runLevel]
      rcases tokMatch_spec [.BangEqual, .EqualEqual] ts with hm | ⟨t, rest, rfl, hne, hm⟩
      · simp only [hm]; rfl
      · simp only [hm]
        have hrest := containsEOF_tail hts hne
        have hsafe := (runLevel_safe fuel .comparison rest hrest).2
        have hlen := runLevel_len fuel .comparison rest
        have hcf := ih .comparison rest hrest
          (by simp only [rank, List.length_cons] at hb ⊢; omega)
        rcases hres : runLevel fuel .comparison rest with ⟨r1, ts''⟩
        rw [hres] at hsafe hlen hcf
        cases r1 with
        | ok right =>
          exact ih (.equalityLoop (.binary e t right)) ts'' hsafe
            (by have hl2 : ts''.length ≤ rest.length := hlen;
                simp only [rank, List.length_cons] at hb ⊢; omega)
        | perr pe => rfl
        | panicked m => rfl
        | fuelOut => simp [Res.isFuelOut] at hcf
    | comparison =>
      simp only [runLevel]
      have hsafe := (runLevel_safe fuel .term ts hts).2
      have hlen := runLevel_len fuel .term ts
      have hcf := ih .term ts hts (by simp only [rank] at hb ⊢; omega)
      rcases hres : runLevel fuel .term ts with ⟨r1, ts'⟩
      rw [hres] at hsafe hlen hcf
      cases r1 with
      | ok e =>
        exact ih (.comparisonLoop e) ts' hsafe
          (by have hl2 : ts'.length ≤ ts.length := hlen; simp only [rank] at hb ⊢; omega)
      | perr pe => rfl
      | panicked m => rfl
      | fuelOut => simp [Res.isFuelOut] at hcf
    | comparisonLoop e =>
      simp only [runLevel]
      rcases tokMatch_spec [.Greater, .GreaterEqual, .Less, .LessEqual] ts with
        hm | ⟨t, rest, rfl, hne, hm⟩
      · simp only [hm]; rfl
      · simp only [hm]
        have hrest := containsEOF_tail hts hne
        have hsafe := (runLevel_safe fuel .term rest hrest).2
        have hlen := runLevel_len fuel .term rest
        have hcf := ih .term rest hrest
          (by simp only [rank, List.length_cons] at hb ⊢; omega)
        rcases hres : runLevel fuel .term rest with ⟨r1, ts''⟩
        rw [hres] at hsafe hlen hcf
        cases r1 with
        | ok right =>
          exact ih (.comparisonLoop (.binary e t right)) ts'' hsafe
            (by have hl2 : ts''.length ≤ rest.length := hlen;
                simp only [rank, List.length_cons] at hb ⊢; omega)
        | perr pe => rfl
        | panicked m => rfl
        | fuelOut => simp [Res.isFuelOut] at hcf
    | term =>
      simp only [runLevel]
      have hsafe := (runLevel_safe fuel .factor ts hts).2
      have hlen := runLevel_len fuel .factor ts
      have hcf := ih .factor ts hts (by simp only [rank] at hb ⊢; omega)
      rcases hres : runLevel fuel .factor ts with ⟨r1, ts'⟩
      rw [hres] at hsafe hlen hcf
      cases r1 with
      | ok e =>
        exact ih (.termLoop e) ts' hsafe
          (by have hl2 : ts'.length ≤ ts.length := hlen; simp only [rank] at hb ⊢; omega)
      | perr pe => rfl
      | panicked m => rfl
      | fuelOut => simp [Res.isFuelOut] at hcf
    | termLoop e =>
      simp only [runLevel]
      rcases tokMatch_spec [.Minus, .Plus] ts with hm | ⟨t, rest, rfl, hne, hm⟩
      · simp only [hm]; rfl
      · simp only [hm]
        have hrest := containsEOF_tail hts hne
        have hsafe := (runLevel_safe fuel .term rest hrest).2
        have hlen := runLevel_len fuel .term rest
        have hcf := ih .term rest hrest
          (by simp only [rank, List.length_cons] at hb ⊢; omega)
        rcases hres : runLevel fuel .term rest with ⟨r1, ts''⟩
        rw [hres] at hsafe hlen hcf
        cases r1 with
        | ok right =>
          exact ih (.termLoop (.binary e t right)) ts'' hsafe
            (by have hl2 : ts''.length ≤ rest.length := hlen;
                simp only [rank, List.length_cons] at hb ⊢; omega)
        | perr pe => rfl
        | panicked m => rfl
        | fuelOut => simp [Res.isFuelOut] at hcf
    | factor =>
      simp only [runLevel]
      have hsafe := (runLevel_safe fuel .unary ts hts).2
      have hlen := runLevel_len fuel .unary ts
      have hcf := ih .unary ts hts (by simp only [rank] at hb ⊢; omega)
      rcases hres : runLevel fuel .unary ts with ⟨r1, ts'⟩
      rw [hres] at hsafe hlen hcf
      cases r1 with
      | ok e =>
        exact ih (.factorLoop e) ts' hsafe
          (by have hl2 : ts'.length ≤ ts.length := hlen; simp only [rank] at hb ⊢; omega)
      | perr pe => rfl
      | panicked m => rfl
      | fuelOut => simp [Res.isFuelOut] at hcf
    | factorLoop e =>
      simp only [runLevel]
      rcases tokMatch_spec [.Slash, .Star] ts with hm | ⟨t, rest, rfl, hne, hm⟩
      · simp only [hm]; rfl
      · simp only [hm]
        have hrest := containsEOF_tail hts hne
        have hsafe := (runLevel_safe fuel .unary rest hrest).2
        have hlen := runLevel_len fuel .unary rest
        have hcf := ih .unary rest hrest
          (by simp only [rank, List.length_cons] at hb ⊢; omega)
        rcases hres : runLevel fuel .unary rest with ⟨r1, ts''⟩
        rw [hres] at hsafe hlen hcf
        cases r1 with
        | ok right =>
          exact ih (.factorLoop (.binary e t right)) ts'' hsafe
            (by have hl2 : ts''.length ≤ rest.length := hlen;
                simp only [rank, List.length_cons] at hb ⊢; omega)
        | perr pe => rfl
        | panicked m => rfl
        | fuelOut => simp [Res.isFuelOut] at hcf
    | unary =>
      simp only [runLevel]
      rcases tokMatch_spec [.Bang, .Minus] ts with hm | ⟨t, rest, rfl, hne, hm⟩
      · simp only [hm]
        exact ih .primary ts hts (by simp only [rank] at hb ⊢; omega)
      · simp only [hm]
        have hrest := containsEOF_tail hts hne
        have hcf := ih .unary rest hrest
          (by simp only [rank, List.length_cons] at hb ⊢; omega)
        rcases hres : runLevel fuel .unary rest with ⟨r1, ts''⟩
        rw [hres] at hcf
        cases r1 with
        | ok right => rfl
        | perr pe => rfl
        | panicked m => rfl
        | fuelOut => simp [Res.isFuelOut] at hcf
    | primary =>
      simp only [runLevel]
      rcases tokMatch_spec [.False, .True, .Nil, .Number, .String] ts with
        hm1 | ⟨t, rest, rfl, hne, hm1⟩
      · simp only [hm1]
        rcases tokMatch_spec [.LeftParen] ts with hm2 | ⟨t2, rest2, rfl, hne2, hm2⟩
        · simp only [hm2]
          cases ts with
          | nil => exact absurd rfl (containsEOF_ne_nil hts)
          | cons u us => rfl
        · simp only [hm2]
          have hrest2 := containsEOF_tail hts hne2
          have hsafe := (runLevel_safe fuel .expression rest2 hrest2).2
          have hcf := ih .expression rest2 hrest2
            (by simp only [rank, List.length_cons] at hb ⊢; omega)
          rcases hres : runLevel fuel .expression rest2 with ⟨r1, ts3⟩
          rw [hres] at hsafe hcf
          cases r1 with
          | ok e =>
            have hcnf := consume_ne_fuelOut .RightParen rightParenMsg ts3
            rcases hcons : consume .RightParen rightParenMsg ts3 with ⟨r2, ts4⟩
            rw [hcons] at hcnf
            simp only [hcons]
            cases r2 with
            | ok o => rfl
            | perr pe => rfl
            | panicked m => rfl
            | fuelOut => simp [Res.isFuelOut] at hcnf
          | perr pe => rfl
          | panicked m => rfl
          | fuelOut => simp [Res.isFuelOut] at hcf
      · simp only [hm1]; rfl

end Parser

namespace Parser

theorem parseGo_safe (fuel : Nat) (ts : List Token) (hts : containsEOF ts) :
    (parseGo fuel ts).1.isPanicked = false ∧ containsEOF (parseGo fuel ts).2 := by
  unfold parseGo expression
  have h := runLevel_safe fuel .expression ts hts
  rcases hres : runLevel fuel .expression ts with ⟨r1, ts'⟩
  rw [hres] at h
  cases r1 with
  | ok e => exact ⟨rfl, h.2⟩
  | perr pe => exact ⟨rfl, h.2⟩
  | panicked m => simp [Res.isPanicked] at h
  | fuelOut => exact ⟨rfl, h.2⟩

end Parser

/-! ## C9 -/

/-- C9: on any token list ending in `EOF`, the parser's `advance` refuses to
pop the `EOF` token, so the internal queue always retains it (in particular
it is never empty) and no "no tokens remaining" panic branch of `consume`,
`primary` or `unary` — nor the out-of-bounds read in `advance`, nor the
`tok_match returned True and None` panics — can fire: `parse` never returns
the panic outcome and its final queue still holds the `EOF` token. -/
theorem c9_parse_never_panics (fuel : Nat) (ts : List Token)
    (h : Parser.endsInEOF ts = true) :
    (Parser.parse fuel ts).1.isPanicked = false ∧
    Parser.containsEOF (Parser.parse fuel ts).2 := by
  have hts := Parser.endsInEOF_containsEOF h
  cases ts with
  | nil => exact absurd rfl (Parser.containsEOF_ne_nil hts)
  | cons t rest =>
    cases rest with
    | nil =>
      by_cases he : t.tok_type = .EOF
      · simp only [Parser.parse, he, if_true]
        exact ⟨rfl, hts⟩
      · simp only [Parser.parse, he, if_false]
        exact Parser.parseGo_safe fuel [t] hts
    | cons t2 rest2 =>
      simp only [Parser.parse]
      exact Parser.parseGo_safe fuel (t :: t2 :: rest2) hts

/-- C9 witness: the two-token queue `[1, EOF]`. -/
theorem c9_parse_never_panics_witness :
    Parser.endsInEOF [numTok 1 ['1'], eofTok] = true ∧
    ((Parser.parse 50 [numTok 1 ['1'], eofTok]).1.isPanicked = false ∧
     Parser.containsEOF (Parser.parse 50 [numTok 1 ['1'], eofTok]).2) :=
  ⟨by decide, c9_parse_never_panics 50 [numTok 1 ['1'], eofTok] (by decide)⟩

/-! ## C5 amended theorem -/

/-- C5 (amended): with enough fuel, on any `EOF`-ended token list `parse`
returns `Ok(None)` exactly when the list is the single `EOF` token, and
otherwise returns `Ok(Some(tree))` for the first expression parsed from the
front of the queue (trailing tokens are left unconsumed, not reported) or
`Err(ParseError)`; no partial tree accompanies an error and no other
outcome is possible. -/
theorem c5_parse_amended (fuel : Nat) (ts : List Token)
    (h : Parser.endsInEOF ts = true) (hfuel : 8 * ts.length + 9 ≤ fuel) :
    ((Parser.parse fuel ts).1 = .ok none ↔ ts.length = 1) ∧
    ((Parser.parse fuel ts).1 = .ok none ∨
     (∃ e, (Parser.parse fuel ts).1 = .ok (some e)) ∨
     (∃ pe, (Parser.parse fuel ts).1 = .perr pe)) := by
  have hts := Parser.endsInEOF_containsEOF h
  cases ts with
  | nil => exact absurd rfl (Parser.containsEOF_ne_nil hts)
  | cons t rest =>
    cases rest with
    | nil =>
      have he : t.tok_type = .EOF := by
        simpa [Parser.endsInEOF] using h
      simp only [Parser.parse, he, if_true]
      exact ⟨by simp, Or.inl (by simp)⟩
    | cons t2 rest2 =>
      simp only [Parser.parse, Parser.parseGo, Parser.expression]
      have hsafe := (Parser.runLevel_safe fuel .expression (t :: t2 :: rest2) hts).1
      have hfo := Parser.runLevel_fuel fuel .expression (t :: t2 :: rest2) hts
        (by simp only [Parser.rank]; omega)
      rcases hres : Parser.runLevel fuel .expression (t :: t2 :: rest2) with ⟨r1, ts'⟩
      rw [hres] at hsafe hfo
      cases r1 with
      | ok e =>
        refine ⟨by simp, Or.inr (Or.inl ⟨e, rfl⟩)⟩
      | perr pe =>
        refine ⟨by simp, Or.inr (Or.inr ⟨pe, rfl⟩)⟩
      | panicked m => simp [Parser.Res.isPanicked] at hsafe
      | fuelOut => simp [Parser.Res.isFuelOut] at hfo

/-- C5 witness: the queue `[1, EOF]` with fuel 30. -/
theorem c5_parse_amended_witness :
    Parser.endsInEOF [numTok 1 ['1'], eofTok] = true ∧
    8 * [numTok 1 ['1'], eofTok].length + 9 ≤ 30 ∧
    (((Parser.parse 30 [numTok 1 ['1'], eofTok]).1 = .ok none ↔
        [numTok 1 ['1'], eofTok].length = 1) ∧
     ((Parser.parse 30 [numTok 1 ['1'], eofTok]).1 = .ok none ∨
      (∃ e, (Parser.parse 30 [numTok 1 ['1'], eofTok]).1 = .ok (some e)) ∨
      (∃ pe, (Parser.parse 30 [numTok 1 ['1'], eofTok]).1 = .perr pe))) :=
  ⟨by decide, by decide,
    c5_parse_amended 30 [numTok 1 ['1'], eofTok] (by decide) (by decide)⟩

namespace Scanner

/-- The slice `chars[a..b)`: the text the scanner has consumed between the
cursor positions `a` and `b`. -/
def seg (cs : List Char) (a b : Nat) : List Char := (cs.drop a).take (b - a)

theorem seg_self (cs : List Char) (a : Nat) : seg cs a a = [] := by
  simp [seg]

theorem seg_append (cs : List Char) (a b : Nat) (hab : a ≤ b) (hb : b < cs.length) :
    seg cs a b ++ [cs.getD b '\x00'] = seg cs a (b + 1) := by
  unfold seg
  have h1 : b + 1 - a = (b - a) + 1 := by omega
  rw [h1, List.take_succ]
  have h2 : (cs.drop a)[b - a]? = some cs[b] := by
    rw [List.getElem?_drop]
    have : a + (b - a) = b := by omega
    rw [this]
    exact List.getElem?_eq_getElem hb
  rw [h2, List.getD_eq_getElem cs '\x00' hb]
  rfl

theorem seg_length (cs : List Char) (a b : Nat) (hb : b ≤ cs.length) (hab : a ≤ b) :
    (seg cs a b).length = b - a := by
  unfold seg
  rw [List.length_take, List.length_drop]
  omega

theorem seg_inner (cs : List Char) (a b : Nat) (h2 : a + 2 ≤ b) (hb : b ≤ cs.length) :
    ((seg cs a b).drop 1).dropLast = (cs.drop (a + 1)).take (b - 1 - (a + 1)) := by
  have hd : (seg cs a b).drop 1 = (cs.drop (a + 1)).take (b - a - 1) := by
    unfold seg
    rw [List.drop_take, List.drop_drop]
  rw [hd, List.dropLast_eq_take]
  rw [List.length_take, List.length_drop]
  have hmin : min (b - a - 1) (cs.length - (a + 1)) = b - a - 1 := by omega
  rw [hmin, List.take_take]
  congr 1
  omega

theorem advance_eq_some (s : St) (h : s.current < s.chars.length) :
    advance s = some (s.chars.getD s.current '\x00',
      { s with text_buffer := s.text_buffer ++ [s.chars.getD s.current '\x00'],
               current := s.current + 1 }) := by
  unfold advance
  rw [List.getElem?_eq_getElem h, List.getD_eq_getElem s.chars '\x00' h]

theorem advance_some {s : St} {c : Char} {s' : St} (h : advance s = some (c, s')) :
    s.current < s.chars.length ∧ c = s.chars.getD s.current '\x00' ∧
    s' = { s with text_buffer := s.text_buffer ++ [c], current := s.current + 1 } := by
  unfold advance at h
  rcases hg : s.chars[s.current]? with _ | c0
  · rw [hg] at h; simp at h
  · rw [hg] at h
    simp only [Option.some.injEq, Prod.mk.injEq] at h
    obtain ⟨rfl, rfl⟩ := h
    have hlt : s.current < s.chars.length := List.getElem?_eq_some_iff.mp hg |>.choose
    refine ⟨hlt, ?_, rfl⟩
    rw [List.getD_eq_getElem s.chars '\x00' hlt]
    have := List.getElem?_eq_getElem hlt
    rw [hg] at this
    exact (Option.some.injEq _ _ ▸ this)

end Scanner

/-- The payload invariant of C8: a token's literal payloads are fully
determined by its kind — `Number` carries the float parse of its lexeme
(and defaults elsewhere), `String` carries the text between the quotes of
its lexeme, `True` carries boolean `true`, and every other kind carries
only the default payloads. -/
def expectedPayload (t : Token) : Prop :=
  match t.tok_type with
  | .Number => t.float_literal = parseF64 t.lexeme ∧ t.string_literal = [] ∧
      t.bool_literal = false
  | .String => t.float_literal = .num 0 1 ∧
      t.string_literal = (t.lexeme.drop 1).dropLast ∧ t.bool_literal = false
  | .True => t.float_literal = .num 0 1 ∧ t.string_literal = [] ∧ t.bool_literal = true
  | _ => t.float_literal = .num 0 1 ∧ t.string_literal = [] ∧ t.bool_literal = false

namespace Scanner

theorem addTokenBase_payload (s : St) (tt : TokenType) (h1 : tt ≠ .True)
    (h2 : tt ≠ .Number) (h3 : tt ≠ .String) :
    expectedPayload (addTokenBase s tt) := by
  cases tt <;> simp_all [expectedPayload, addTokenBase]

theorem addToken_payload (s : St) (tt : TokenType) (h1 : tt ≠ .Number) (h2 : tt ≠ .String) :
    expectedPayload (addToken s tt) := by
  cases tt <;> simp_all [expectedPayload, addToken, addTokenBase, addTokenBool]

theorem reservedLookup_not_literal {cs : List Char} {tt : TokenType}
    (h : reservedLookup cs = some tt) : tt ≠ .Number ∧ tt ≠ .String := by
  unfold reservedLookup at h
  rcases hf : reserved.find? (fun p => p.1 == cs) with _ | p
  · rw [hf] at h
    simp only [Option.map_none'] at h
    exact Option.noConfusion h
  · rw [hf] at h
    simp only [Option.map_some', Option.some.injEq] at h
    subst h
    have hmem := List.mem_of_find?_eq_some hf
    have hall : ∀ q ∈ reserved, q.2 ≠ TokenType.Number ∧ q.2 ≠ TokenType.String := by decide
    exact hall p hmem

theorem parse_identifier_payload {fuel : Nat} {s : St} {tok : Token} {s' : St}
    (h : parse_identifier fuel s = .ok (tok, s')) : expectedPayload tok := by
  unfold parse_identifier at h
  cases hid : identLoop fuel s with
  | panicked m => simp only [hid] at h; exact Out.noConfusion h
  | fuelOut => simp only [hid] at h; exact Out.noConfusion h
  | ok s1 =>
    simp only [hid] at h
    rcases hres : reservedLookup s1.text_buffer with _ | tt <;> simp only [hres] at h
    · simp only [Out.ok.injEq, Prod.mk.injEq] at h
      obtain ⟨rfl, rfl⟩ := h
      exact addToken_payload _ _ (by decide) (by decide)
    · simp only [Out.ok.injEq, Prod.mk.injEq] at h
      obtain ⟨rfl, rfl⟩ := h
      obtain ⟨hn, hs⟩ := reservedLookup_not_literal hres
      exact addToken_payload _ _ hn hs

theorem parse_number_payload {fuel : Nat} {s : St} {tok : Token} {s' : St}
    (h : parse_number fuel s = .ok (tok, s')) : expectedPayload tok := by
  unfold parse_number at h
  cases hd1 : digitLoop fuel s with
  | panicked m => simp only [hd1] at h; exact Out.noConfusion h
  | fuelOut => simp only [hd1] at h; exact Out.noConfusion h
  | ok s1 =>
    simp only [hd1] at h
    by_cases hdot : peek s1 = '.' ∧ (peekNext s1).isDigit = true
    · rw [if_pos hdot] at h
      cases hadv : advance s1 with
      | none => simp only [hadv] at h; exact Out.noConfusion h
      | some p =>
        obtain ⟨c2, s2⟩ := p
        simp only [hadv] at h
        cases hd2 : digitLoop fuel s2 with
        | panicked m => simp only [hd2] at h; exact Out.noConfusion h
        | fuelOut => simp only [hd2] at h; exact Out.noConfusion h
        | ok s3 =>
          simp only [hd2] at h
          simp only [Out.ok.injEq, Prod.mk.injEq] at h
          obtain ⟨rfl, rfl⟩ := h
          simp [expectedPayload, addTokenFloat, addTokenBase]
    · rw [if_neg hdot] at h
      simp only [Out.ok.injEq, Prod.mk.injEq] at h
      obtain ⟨rfl, rfl⟩ := h
      simp [expectedPayload, addTokenFloat, addTokenBase]

theorem stringLoop_spec : ∀ (fuel : Nat) (s s' : St), stringLoop fuel s = .ok s' →
    s.current ≤ s.chars.length → s.start ≤ s.current →
    s'.chars = s.chars ∧ s'.start = s.start ∧ s.current ≤ s'.current ∧
    s'.current ≤ s.chars.length ∧
    (s.text_buffer = seg s.chars s.start s.current →
      s'.text_buffer = seg s.chars s.start s'.current) := by
  intro fuel
  induction fuel with
  | zero => intro s s' h _ _; simp [stringLoop] at h
  | succ fuel ih =>
    intro s s' h hcur hsc
    rw [stringLoop] at h
    by_cases hg : peek s ≠ '"' ∧ ¬ isAtEnd s
    · rw [if_pos hg] at h
      have hlt : s.current < s.chars.length := by
        have h2 := hg.2
        simp only [isAtEnd, decide_eq_true_eq, Bool.not_eq_true] at h2
        omega
      have hite : (if peek s = '\n' then { s with line := s.line + 1 } else s)
          = { s with line := if peek s = '\n' then s.line + 1 else s.line } := by
        split <;> rfl
      rw [hite] at h
      rw [advance_eq_some { s with line := if peek s = '\n' then s.line + 1 else s.line } hlt] at h
      obtain ⟨hc, hst, hcu, hcl, hbuf⟩ :=
        ih _ s' h (Nat.succ_le_of_lt hlt) (le_trans hsc (Nat.le_succ _))
      have hc' : s'.chars = s.chars := hc
      have hst' : s'.start = s.start := hst
      have hcu' : s.current + 1 ≤ s'.current := hcu
      have hcl' : s'.current ≤ s.chars.length := hcl
      have hbuf' : s.text_buffer ++ [s.chars.getD s.current '\x00']
            = seg s.chars s.start (s.current + 1) →
          s'.text_buffer = seg s.chars s.start s'.current := hbuf
      refine ⟨hc', hst', by omega, hcl', fun hb => hbuf' ?_⟩
      rw [hb]
      exact seg_append s.chars s.start s.current hsc hlt
    · rw [if_neg hg] at h
      simp only [Out.ok.injEq] at h
      subst h
      exact ⟨rfl, rfl, le_refl _, hcur, fun hb => hb⟩

theorem parse_string_payload {fuel : Nat} {s : St} {tok : Token} {s2 : St}
    (h : parse_string fuel s = .ok (tok, s2))
    (hbuf : s.text_buffer = seg s.chars s.start s.current)
    (hsc : s.start < s.current) (hcur : s.current ≤ s.chars.length) :
    expectedPayload tok := by
  unfold parse_string at h
  cases hsl : stringLoop fuel s with
  | panicked m => simp only [hsl] at h; exact Out.noConfusion h
  | fuelOut => simp only [hsl] at h; exact Out.noConfusion h
  | ok s1 =>
    simp only [hsl] at h
    obtain ⟨hc, hst, hcu, hcl, hb1⟩ := stringLoop_spec fuel s s1 hsl hcur (le_of_lt hsc)
    cases hadv : advance s1 with
    | none => simp only [hadv] at h; exact Out.noConfusion h
    | some p =>
      obtain ⟨c2, s2'⟩ := p
      simp only [hadv] at h
      obtain ⟨hlt1, hc2, hs2'⟩ := advance_some hadv
      simp only [Out.ok.injEq, Prod.mk.injEq] at h
      obtain ⟨rfl, rfl⟩ := h
      subst hs2'
      have hbuf1 : s1.text_buffer = seg s.chars s.start s1.current := hb1 hbuf
      simp only [expectedPayload, addTokenString, addTokenBase]
      refine ⟨trivial, ?_, trivial⟩
      have hlex : s1.text_buffer ++ [s1.chars.getD s1.current '\x00']
          = seg s.chars s.start (s1.current + 1) := by
        rw [hbuf1, hc]
        exact seg_append s.chars s.start s1.current (by omega) (by rw [← hc]; exact hlt1)
      rw [hc2, hlex, hc, hst]
      have h2 : s.start + 2 ≤ s1.current + 1 := by omega
      have hb2 : s1.current + 1 ≤ s.chars.length := by
        rw [← hc]; exact hlt1
      have hinner := seg_inner s.chars s.start (s1.current + 1) h2 hb2
      rw [hinner]

end Scanner

namespace Scanner

set_option maxHeartbeats 1000000 in
theorem scanStep_payload (fuel : Nat) (c : Char) (s1 : St) (tok : Token) (s2 : St)
    (hbuf : s1.text_buffer = seg s1.chars s1.start s1.current)
    (hsc : s1.start < s1.current) (hcur : s1.current ≤ s1.chars.length)
    (h : scanStep fuel c s1 = .ok (some tok, s2)) :
    expectedPayload tok := by
  unfold scanStep at h
  split at h
  all_goals try (simp only [Out.ok.injEq, Prod.mk.injEq, Option.some.injEq] at h; obtain ⟨rfl, rfl⟩ := h; exact addToken_payload _ _ (by decide) (by decide))
  all_goals try (exact absurd h (by simp))
  -- remaining arms: `!`, `=`, `<`, `>`, `/`, `"` and the digit/alpha/other tail
  · rcases htm : tokMatch '=' s1 with ⟨b, st'⟩
    simp only [htm] at h
    cases b <;> (simp only [Out.ok.injEq, Prod.mk.injEq, Option.some.injEq] at h; obtain ⟨rfl, rfl⟩ := h; exact addToken_payload _ _ (by decide) (by decide))
  · rcases htm : tokMatch '=' s1 with ⟨b, st'⟩
    simp only [htm] at h
    cases b <;> (simp only [Out.ok.injEq, Prod.mk.injEq, Option.some.injEq] at h; obtain ⟨rfl, rfl⟩ := h; exact addToken_payload _ _ (by decide) (by decide))
  · rcases htm : tokMatch '=' s1 with ⟨b, st'⟩
    simp only [htm] at h
    cases b <;> (simp only [Out.ok.injEq, Prod.mk.injEq, Option.some.injEq] at h; obtain ⟨rfl, rfl⟩ := h; exact addToken_payload _ _ (by decide) (by decide))
  · rcases htm : tokMatch '=' s1 with ⟨b, st'⟩
    simp only [htm] at h
    cases b <;> (simp only [Out.ok.injEq, Prod.mk.injEq, Option.some.injEq] at h; obtain ⟨rfl, rfl⟩ := h; exact addToken_payload _ _ (by decide) (by decide))
  · rcases htm : tokMatch '/' s1 with ⟨b, st'⟩
    simp only [htm] at h
    cases b with
    | true =>
      cases hcl : commentLoop fuel st' with
      | ok s'' => simp only [hcl] at h; exact absurd h (by simp)
      | panicked m => simp only [hcl] at h; exact Out.noConfusion h
      | fuelOut => simp only [hcl] at h; exact Out.noConfusion h
    | false =>
      simp only [Out.ok.injEq, Prod.mk.injEq, Option.some.injEq] at h
      obtain ⟨rfl, rfl⟩ := h
      exact addToken_payload _ _ (by decide) (by decide)
  · cases hps : parse_string fuel s1 with
    | ok p =>
      obtain ⟨t, st'⟩ := p
      simp only [hps] at h
      simp only [Out.ok.injEq, Prod.mk.injEq, Option.some.injEq] at h
      obtain ⟨rfl, rfl⟩ := h
      exact parse_string_payload hps hbuf hsc hcur
    | panicked m => simp only [hps] at h; exact Out.noConfusion h
    | fuelOut => simp only [hps] at h; exact Out.noConfusion h
  · by_cases hd : c.isDigit = true
    · rw [if_pos hd] at h
      cases hpn : parse_number fuel s1 with
      | ok p =>
        obtain ⟨t, st'⟩ := p
        simp only [hpn] at h
        simp only [Out.ok.injEq, Prod.mk.injEq, Option.some.injEq] at h
        obtain ⟨rfl, rfl⟩ := h
        exact parse_number_payload hpn
      | panicked m => simp only [hpn] at h; exact Out.noConfusion h
      | fuelOut => simp only [hpn] at h; exact Out.noConfusion h
    · rw [if_neg hd] at h
      by_cases ha : is_alpha c = true
      · rw [if_pos ha] at h
        cases hpi : parse_identifier fuel s1 with
        | ok p =>
          obtain ⟨t, st'⟩ := p
          simp only [hpi] at h
          simp only [Out.ok.injEq, Prod.mk.injEq, Option.some.injEq] at h
          obtain ⟨rfl, rfl⟩ := h
          exact parse_identifier_payload hpi
        | panicked m => simp only [hpi] at h; exact Out.noConfusion h
        | fuelOut => simp only [hpi] at h; exact Out.noConfusion h
      · rw [if_neg ha] at h
        exact absurd h (by simp)

end Scanner

namespace Scanner

theorem scanLoop_payload : ∀ (fuel : Nat) (s : St) (acc toks : List Token),
    s.text_buffer = [] →
    (∀ t ∈ acc, expectedPayload t) →
    scanLoop fuel s acc = .ok toks →
    ∀ t ∈ toks, expectedPayload t := by
  intro fuel
  induction fuel with
  | zero => intro s acc toks _ _ h; simp [scanLoop] at h
  | succ fuel ih =>
    intro s acc toks hbuf hacc h
    rw [scanLoop] at h
    by_cases hend : isAtEnd s = true
    · have hcond : ¬ (¬ isAtEnd s = true) := by rw [hend]; simp
      rw [if_neg hcond] at h
      simp only [Out.ok.injEq] at h
      subst h
      intro t ht
      rcases List.mem_append.mp ht with hta | hte
      · exact hacc t hta
      · simp only [List.mem_singleton] at hte
        subst hte
        exact addTokenBase_payload s .EOF (by decide) (by decide) (by decide)
    · have hcond : ¬ isAtEnd s = true := hend
      rw [if_pos hcond] at h
      have hlt : s.current < s.chars.length := by
        simp only [isAtEnd, decide_eq_true_eq] at hend
        omega
      rw [advance_eq_some { s with start := s.current } hlt] at h
      cases hss : scanStep fuel (({ s with start := s.current } : St).chars.getD
          ({ s with start := s.current } : St).current '\x00')
          { { s with start := s.current } with
            text_buffer := ({ s with start := s.current } : St).text_buffer ++
              [({ s with start := s.current } : St).chars.getD
                ({ s with start := s.current } : St).current '\x00'],
            current := ({ s with start := s.current } : St).current + 1 } with
      | panicked m => simp only [hss] at h; exact Out.noConfusion h
      | fuelOut => simp only [hss] at h; exact Out.noConfusion h
      | ok p =>
        obtain ⟨t?, s2⟩ := p
        simp only [hss] at h
        have hseg : seg s.chars s.current (s.current + 1)
            = [s.chars.getD s.current '\x00'] := by
          have hap := seg_append s.chars s.current s.current (le_refl _) hlt
          rw [seg_self] at hap
          simpa using hap.symm
        cases t? with
        | none => exact ih _ _ _ rfl hacc h
        | some tok =>
          have htok : expectedPayload tok := by
            refine scanStep_payload fuel _ _ tok s2 ?_ ?_ ?_ hss
            · show s.text_buffer ++ [s.chars.getD s.current '\x00']
                = seg s.chars s.current (s.current + 1)
              rw [hbuf, hseg]
              rfl
            · exact Nat.lt_succ_self _
            · exact hlt
          refine ih _ _ _ rfl ?_ h
          intro t ht
          rcases List.mem_append.mp ht with hta | hte
          · exact hacc t hta
          · simp only [List.mem_singleton] at hte
            subst hte
            exact htok

end Scanner

/-! ## C8 -/

/-- C8: whenever `scan_tokens` returns a token sequence, every token's
literal payloads are determined by its kind: a `Number` token carries the
float parse of its lexeme, a `String` token carries the text between the
quotes of its lexeme, a `True` token carries boolean `true`, and every
other kind carries only default payloads — so a nonzero float payload,
nonempty string payload, or true boolean payload pins the kind to
`Number`, `String`, `True` respectively. -/
theorem c8_payload_determined_by_kind (fuel : Nat) (src : List Char) (toks : List Token)
    (h : Scanner.scan_tokens fuel src = .ok toks) :
    ∀ t ∈ toks, expectedPayload t :=
  Scanner.scanLoop_payload fuel (Scanner.mkSt src) [] toks rfl
    (fun t ht => absurd ht (List.not_mem_nil t)) h

/-- The `String` token the scanner produces for the source `"ab"`. -/
def strTokAB : Token := { mkTok .String ['"', 'a', 'b', '"'] with string_literal := ['a', 'b'] }

set_option maxHeartbeats 1000000 in
/-- C8 witness: scanning `"ab"` returns a `String` token whose payload is
the text between the quotes, plus the `EOF` token. -/
theorem c8_payload_determined_by_kind_witness :
    Scanner.scan_tokens 30 ['"', 'a', 'b', '"'] = .ok [strTokAB, eofTok] ∧
    expectedPayload strTokAB :=
  ⟨by decide,
    c8_payload_determined_by_kind 30 ['"', 'a', 'b', '"'] [strTokAB, eofTok]
      (by decide) strTokAB (by decide)⟩
